import Mathlib

/-!
# Tasmota Tiny-Monitor: a shallow embedding of `tasmota_tiny_monitor.c`

The gateway accepts one HTTP request, fetches the meter's HTML status page,
cuts nine numeric fields and one state field out of it by substring search,
and answers with a JSON document.

Conventions of the embedding.

* A byte is a `Nat` (its value as `unsigned char`, `0 .. 255`); a C string is
  the list of its bytes before the terminating NUL.
* A pointer into a string is an offset into the list (`p = hay + off`), so
  `strstr` and `strchr` return `Option Nat` (`none` is `NULL`).
* Whether plain `char` is signed is implementation-defined and it matters for
  `trim`, which compares a `char` with `0xC2` and `0xA0`; it is the parameter
  `charSigned` wherever `trim` is involved.
* The C library functions the program calls (`strstr`, `strchr`, `strncmp`,
  `strlen`, `strtod`, `snprintf`) are modelled after ISO C in the "C" locale;
  `strtod` and `%.3f` follow glibc's correctly rounded IEEE-754 binary64
  conversions.
-/

namespace Tasmota

/-! ## Bytes and C strings -/

/-- The bytes of an ASCII string literal. -/
def bytes (s : String) : List Nat := s.data.map Char.toNat

/-- The C string held in a buffer: the bytes before the first NUL (`strlen`
is its length). -/
def cstr (buf : List Nat) : List Nat := buf.takeWhile (fun b => b != 0)

/-- Does `hay` begin with `needle`, byte for byte. -/
def startsWith : List Nat → List Nat → Bool
  | _, [] => true
  | [], _ :: _ => false
  | a :: as, b :: bs => a == b && startsWith as bs

/-- The function `strstr(hay, needle)`: the offset of the first occurrence of `needle` in
`hay`, or `none` (NULL). -/
def strstr : List Nat → List Nat → Option Nat
  | [], needle => if startsWith [] needle then some 0 else none
  | h :: t, needle =>
    if startsWith (h :: t) needle then some 0
    else (strstr t needle).map (fun i => i + 1)

/-- The function `strchr(s, c)` for a byte `c` other than NUL: the offset of its first
occurrence, or `none` (NULL). -/
def strchr : List Nat → Nat → Option Nat
  | [], _ => none
  | h :: t, c => if h = c then some 0 else (strchr t c).map (fun i => i + 1)

/-- The function `strncmp(a, b, n) == 0`: the two C strings agree on their first `n`
bytes, the comparison stopping early at a common NUL. -/
def strncmp_eq : List Nat → List Nat → Nat → Bool
  | _, _, 0 => true
  | [], [], _ + 1 => true
  | [], _ :: _, _ + 1 => false
  | _ :: _, [], _ + 1 => false
  | a :: as, b :: bs, n + 1 => a == b && strncmp_eq as bs n

/-- Width of `size_t` on the 64-bit targets the program is built for. -/
def SIZE_BITS : Nat := 64

/-! ## Field extraction -/

/-- The value-cell marker searched for after a label. -/
def MARKER : List Nat := bytes "style=\x27text-align:left\x27>"

/-- The marker of the big ON/OFF label. -/
def STATE_MARKER : List Nat := bytes "font-size:62px\x27>"

/-- The byte `<`. -/
def LT : Nat := 60

/-- The length copied: `n = end - q; if (n >= outsz) n = outsz - 1;` in `size_t`
arithmetic. -/
def clampLen (n outsz : Nat) : Nat :=
  if n ≥ outsz then (outsz + 2 ^ SIZE_BITS - 1) % 2 ^ SIZE_BITS else n

/-- The function `parse_value_after(hay, label, out, outsz)`. The result is the returned
flag and the C string in `out` afterwards: `out` is left as it was on
`false`, and holds the copied run on `true`. -/
def parse_value_after (hay label out : List Nat) (outsz : Nat) : Bool × List Nat :=
  match strstr hay label with
  | none => (false, out)
  | some p =>
    match strstr (hay.drop p) MARKER with
    | none => (false, out)
    | some m =>
      let q := p + m + MARKER.length
      match strchr (hay.drop q) LT with
      | none => (false, out)
      | some e =>
        if e = 0 then (false, out)
        else (true, (hay.drop q).take (clampLen e outsz))

/-- The function `parse_state(hay, out, outsz)`, with the same result convention. -/
def parse_state (hay out : List Nat) (outsz : Nat) : Bool × List Nat :=
  match strstr hay STATE_MARKER with
  | none => (false, out)
  | some p0 =>
    let p := p0 + STATE_MARKER.length
    match strchr (hay.drop p) LT with
    | none => (false, out)
    | some e =>
      if e = 0 then (false, out)
      else (true, (hay.drop p).take (clampLen e outsz))

/-! ## Trimming -/

/-- The value of a plain `char` holding byte `b` after integer promotion:
the byte itself where `char` is unsigned, and `b - 256` for `b ≥ 128` where it
is signed. -/
def charVal (charSigned : Bool) (b : Nat) : Int :=
  if charSigned && decide (128 ≤ b) then (b : Int) - 256 else (b : Int)

/-- The test of the left-trim loop:
`s[i] == ' ' || s[i] == '\t' || s[i] == '\n' || s[i] == '\r' || s[i] == 0xC2 || s[i] == 0xA0`. -/
def isLeftTrim (charSigned : Bool) (b : Nat) : Bool :=
  charVal charSigned b == 32 || charVal charSigned b == 9 || charVal charSigned b == 10 ||
  charVal charSigned b == 13 || charVal charSigned b == 0xC2 || charVal charSigned b == 0xA0

/-- The test of the right-trim loop:
`s[len-1] == ' ' || s[len-1] == '\t' || s[len-1] == '\n' || s[len-1] == '\r'`. -/
def isRightTrim (charSigned : Bool) (b : Nat) : Bool :=
  charVal charSigned b == 32 || charVal charSigned b == 9 || charVal charSigned b == 10 ||
  charVal charSigned b == 13

/-- The function `trim(s)`: the C string left in the buffer. The left loop skips bytes
while `isLeftTrim` holds (it stops at the NUL), `memmove` brings the rest of
the string to the front, and the right loop cuts trailing bytes while
`isRightTrim` holds. -/
def trim (charSigned : Bool) (s : List Nat) : List Nat :=
  (cstr (s.dropWhile (isLeftTrim charSigned))).rdropWhile (isRightTrim charSigned)

/-! ## Numbers: `strtod` and `%.3f` -/

/-- A `double`: a finite value `(-1)^neg * m * 2^e`, an infinity or a NaN,
each with its sign bit. -/
inductive CDouble
  | finite (neg : Bool) (m : Nat) (e : Int)
  | inf (neg : Bool)
  | nan (neg : Bool)
  deriving DecidableEq, Repr

/-- The function `isspace` in the "C" locale: space, `\t`, `\n`, `\v`, `\f`, `\r`. -/
def isspace (c : Nat) : Bool := c == 32 || (decide (9 ≤ c) && decide (c ≤ 13))

/-- The function `isdigit`. -/
def isdigit (c : Nat) : Bool := decide (48 ≤ c) && decide (c ≤ 57)

/-- The function `isxdigit`. -/
def isxdigit (c : Nat) : Bool :=
  isdigit c || (decide (97 ≤ c) && decide (c ≤ 102)) || (decide (65 ≤ c) && decide (c ≤ 70))

/-- The function `tolower` on ASCII. -/
def tolower (c : Nat) : Nat := if 65 ≤ c ∧ c ≤ 90 then c + 32 else c

/-- The value of a hexadecimal (hence also of a decimal) digit. -/
def xdigitVal (c : Nat) : Nat :=
  if isdigit c then c - 48 else if 97 ≤ c then c - 87 else c - 55

/-- The number written by a run of digits in the given base. -/
def digitsVal (base : Nat) (ds : List Nat) : Nat :=
  ds.foldl (fun acc c => acc * base + xdigitVal c) 0

/-- Does `s` begin with the lower-case word `w`, ignoring case. -/
def startsWithCI (s w : List Nat) : Bool := startsWith (s.map tolower) w

/-- Round the quotient `n / d` to the nearest integer, ties to even. -/
def roundHalfEven (n d : Nat) : Nat :=
  let q := n / d
  let r := n % d
  if 2 * r < d then q else if d < 2 * r then q + 1 else if q % 2 = 0 then q else q + 1

/-- The position of the highest set bit (`0` for `0`), by halving. -/
def log2Fuel : Nat → Nat → Nat
  | 0, _ => 0
  | fuel + 1, n => if n < 2 then 0 else log2Fuel fuel (n / 2) + 1

/-- For positive `num` and `den`: `⌊log₂ (num / den)⌋`. -/
def floorLog2Ratio (num den : Nat) : Int :=
  let k : Int := (log2Fuel num num : Int) - (log2Fuel den den : Int)
  if 0 ≤ k then (if den * 2 ^ k.toNat ≤ num then k else k - 1)
  else (if den ≤ num * 2 ^ (-k).toNat then k else k - 1)

/-- The binary64 value nearest to `num / den` (ties to even), carrying the
sign bit `neg`: 53 significant bits, exponents down to the subnormal
`2^-1074`, and an infinity when the rounded value reaches `2^1024`. -/
def roundToDouble (neg : Bool) (num den : Nat) : CDouble :=
  if num = 0 then .finite neg 0 0
  else
    let e : Int := max (floorLog2Ratio num den - 52) (-1074)
    let m := if 0 ≤ e then roundHalfEven num (den * 2 ^ e.toNat)
             else roundHalfEven (num * 2 ^ (-e).toNat) den
    if 971 < e ∨ (e = 971 ∧ m = 2 ^ 53) then .inf neg else .finite neg m e

/-- The value `mant * base ^ ex` as a `double`. -/
def scaleToDouble (neg : Bool) (mant base : Nat) (ex : Int) : CDouble :=
  if 0 ≤ ex then roundToDouble neg (mant * base ^ ex.toNat) 1
  else roundToDouble neg mant (base ^ (-ex).toNat)

/-- The length of an optional sign at the head of a string: `1` for `+` or
`-`, else `0`. -/
def signLen (s : List Nat) : Nat :=
  match s with
  | c :: _ => if c = 45 ∨ c = 43 then 1 else 0
  | [] => 0

/-- Does the string begin with a minus sign. -/
def isNeg (s : List Nat) : Bool :=
  match s with
  | c :: _ => c == 45
  | [] => false

/-- An optional exponent part after a mantissa: the marker byte (`e` or `p`,
given in lower case), an optional sign and at least one decimal digit. The
result is the exponent and the number of bytes it takes; `(0, 0)` when there
is no well-formed exponent part. -/
def parseExponent (marker : Nat) (s : List Nat) : Int × Nat :=
  match s with
  | c :: rest =>
    if tolower c = marker then
      let ds := (rest.drop (signLen rest)).takeWhile isdigit
      if ds.length = 0 then (0, 0)
      else ((if isNeg rest then -(digitsVal 10 ds : Int) else (digitsVal 10 ds : Int)),
            1 + signLen rest + ds.length)
    else (0, 0)
  | [] => (0, 0)

/-- A mantissa in the given digit class: digits, optionally a point, digits.
The result is the integer part, the fraction part and the number of bytes
taken, or `none` when there is no digit at all. -/
def parseMantissa (isdig : Nat → Bool) (s : List Nat) : Option (List Nat × List Nat × Nat) :=
  let ip := s.takeWhile isdig
  let rest := s.drop ip.length
  match rest with
  | 46 :: rest1 =>
    let fp := rest1.takeWhile isdig
    if ip.length + fp.length = 0 then none else some (ip, fp, ip.length + 1 + fp.length)
  | _ => if ip.length = 0 then none else some (ip, [], ip.length)

/-- The run `(n-char-sequence)` that may follow `nan`: letters, digits and
underscores between parentheses. Its length, `0` when absent. -/
def parseNanChars (s : List Nat) : Nat :=
  match s with
  | 40 :: rest =>
    let run := rest.takeWhile
      (fun c => isdigit c || (decide (97 ≤ tolower c) && decide (tolower c ≤ 122)) || c == 95)
    match rest.drop run.length with
    | 41 :: _ => run.length + 2
    | _ => 0
  | _ => 0

/-- The subject sequence of `strtod` after white space and sign: an infinity,
a NaN, a hexadecimal or a decimal floating constant. The result is the value
and the number of bytes of the subject sequence, `none` when there is no
conversion. -/
def parseSubject (neg : Bool) (s : List Nat) : Option (CDouble × Nat) :=
  if startsWithCI s (bytes "infinity") then some (.inf neg, 8)
  else if startsWithCI s (bytes "inf") then some (.inf neg, 3)
  else if startsWithCI s (bytes "nan") then some (.nan neg, 3 + parseNanChars (s.drop 3))
  else
    let hex := if startsWithCI s (bytes "0x") then parseMantissa isxdigit (s.drop 2) else none
    match hex with
    | some (ip, fp, n) =>
      let ex := parseExponent 112 (s.drop (2 + n))
      some (scaleToDouble neg (digitsVal 16 (ip ++ fp)) 2 (ex.1 - 4 * (fp.length : Int)),
            2 + n + ex.2)
    | none =>
      match parseMantissa isdigit s with
      | none => none
      | some (ip, fp, n) =>
        let ex := parseExponent 101 (s.drop n)
        some (scaleToDouble neg (digitsVal 10 (ip ++ fp)) 10 (ex.1 - (fp.length : Int)),
              n + ex.2)

/-- The function `strtod(s, &end)`: the value and the offset `end - s`. White space is
skipped, then an optional sign, then the subject sequence; with no
conversion the value is `0` and `end == s`. -/
def strtod (s : List Nat) : CDouble × Nat :=
  let ws := (s.takeWhile isspace).length
  let s1 := s.drop ws
  match parseSubject (isNeg s1) (s1.drop (signLen s1)) with
  | none => (.finite false 0 0, 0)
  | some (v, n) => (v, ws + signLen s1 + n)

/-- The function `to_double(s, &out)`: `some v` when it returns `0` having stored `v`,
`none` when it returns `-1` (`end == s`). -/
def to_double (s : List Nat) : Option CDouble :=
  let r := strtod s
  if r.2 = 0 then none else some r.1

/-- The decimal digits of a number, most significant first, given enough
fuel. -/
def natDigitsAux : Nat → Nat → List Nat → List Nat
  | 0, _, acc => acc
  | fuel + 1, n, acc =>
    if n < 10 then (48 + n) :: acc
    else natDigitsAux fuel (n / 10) ((48 + n % 10) :: acc)

/-- The decimal digits of a number (`"0"` for zero). -/
def natDigits (n : Nat) : List Nat := natDigitsAux (n + 1) n []

/-- The sign printed for a set sign bit. -/
def signBytes (neg : Bool) : List Nat := if neg then [45] else []

/-- The conversion `%.3f` of `printf`: the exact binary value rounded to
three decimals (ties to even), printed as sign, integer digits, a point and
three digits; an infinity prints as `inf` and a NaN as `nan`. -/
def fmt3 : CDouble → List Nat
  | .inf neg => signBytes neg ++ bytes "inf"
  | .nan neg => signBytes neg ++ bytes "nan"
  | .finite neg m e =>
    let n := if 0 ≤ e then m * 2 ^ e.toNat * 1000
             else roundHalfEven (m * 1000) (2 ^ (-e).toNat)
    signBytes neg ++ natDigits (n / 1000) ++
      [46, 48 + n % 1000 / 100, 48 + n % 100 / 10, 48 + n % 10]

/-! ## The upstream fetch -/

/-- The growable buffer `buf_t`; `data = none` is the NULL pointer. -/
structure buf_t where
  data : Option (List Nat)
  len : Nat
  deriving DecidableEq, Repr

/-- The function `buf_init`. -/
def buf_init : buf_t := ⟨none, 0⟩

/-- The function `curl_write_cb` with a successful `realloc`: the chunk is appended. -/
def curl_write_cb (b : buf_t) (chunk : List Nat) : buf_t :=
  ⟨some (b.data.getD [] ++ chunk), b.len + chunk.length⟩

/-- What libcurl does during one `fetch_upstream`: whether `curl_easy_init`
gave a handle, the `CURLcode` of `curl_easy_perform` (`0` is `CURLE_OK`; a
transport error or a timeout is non-zero), the HTTP response code, and the
chunks handed to the write callback, in order. -/
structure CurlRun where
  handle : Bool
  rc : Nat
  http_code : Int
  chunks : List (List Nat)
  deriving DecidableEq, Repr

/-- The function `fetch_upstream(out)`: the return value and the buffer afterwards. -/
def fetch_upstream (net : CurlRun) (out : buf_t) : Int × buf_t :=
  if !net.handle then (-1, out)
  else
    let out1 := net.chunks.foldl curl_write_cb out
    if net.rc ≠ 0 ∨ 400 ≤ net.http_code then (-2, out1) else (0, out1)

/-! ## The connection handler -/

/-- The macro `UPSTREAM_URL`. -/
def UPSTREAM_URL : List Nat := bytes "http://192.168.1.124/?m=1"

/-- The macro `NAME_STR`. -/
def NAME_STR : List Nat := bytes "Tasmota Tiny-Monitor"

/-- The nine labels, in the order `handle_client` looks them up. -/
def LABELS : List (List Nat) :=
  [bytes "Voltage", bytes "Current", bytes "Active Power", bytes "Apparent Power",
   bytes "Reactive Power", bytes "Power Factor", bytes "Energy Today",
   bytes "Energy Yesterday", bytes "Energy Total"]

/-- The nine JSON keys of the format string, in the same order. -/
def JSON_KEYS : List (List Nat) :=
  [bytes "voltage", bytes "current", bytes "active_power", bytes "apparent_power",
   bytes "reactive_power", bytes "power_factor", bytes "energy_today_kwh",
   bytes "energy_yesterday_kwh", bytes "energy_total_kwh"]

/-- The body of the 405 answer. -/
def MSG_METHOD : List Nat := bytes "\x7b\"error\":\"method not allowed\"\x7d"

/-- The body of the 502 answer. -/
def MSG_GATEWAY : List Nat :=
  bytes "\x7b\"error\":\"bad gateway\",\"detail\":\"fetch failed\"\x7d"

/-- The body of the 500 answer to a page that does not parse. -/
def MSG_PARSE : List Nat := bytes "\x7b\"error\":\"parse failure\"\x7d"

/-- The body of the 500 answer to a reading that does not fit the buffer. -/
def MSG_SERIAL : List Nat := bytes "\x7b\"error\":\"serialization failure\"\x7d"

/-- The content type `application/json`. -/
def CTYPE_JSON : List Nat := bytes "application/json"

/-- What `handle_client` does, in program order: the call of
`fetch_upstream`, reaching the field extraction (the `parse_value_after`
calls), a call of `send_http` with its arguments, and `close(cfd)`. -/
inductive Event
  | fetch
  | extract
  | send_http (code : Nat) (status ctype body : List Nat)
  | close
  deriving DecidableEq, Repr

/-- The `snprintf` of the reading: the text the format string produces from
the nine values, the state string and the two constants. -/
def compose (vals : List CDouble) (state : List Nat) : List Nat :=
  bytes "\x7b" ++ bytes "\"name\":\"" ++ NAME_STR ++ bytes "\"," ++
  ((JSON_KEYS.zip vals).map
    (fun kv => bytes "\"" ++ kv.1 ++ bytes "\":" ++ fmt3 kv.2 ++ bytes ",")).flatten ++
  bytes "\"state\":\"" ++ state ++ bytes "\"," ++
  bytes "\"source\":\"" ++ UPSTREAM_URL ++ bytes "\"" ++ bytes "\x7d"

/-- Lines 173-243 of `handle_client`: extraction, trimming, conversion and
the answer, for the C string `hay` in `upstream.data`. All ten buffers start
zeroed, that is as empty strings. -/
def respond (charSigned : Bool) (hay : List Nat) : List Event :=
  let parsed := LABELS.map (fun label => parse_value_after hay label [] 64)
  let ok := parsed.all (fun r => r.1)
  let s_state := trim charSigned (parse_state hay [] 32).2
  let nums := parsed.map (fun r => to_double (trim charSigned r.2))
  if !ok || nums.any (fun v => v.isNone) then
    [.send_http 500 (bytes "Internal Server Error") CTYPE_JSON MSG_PARSE, .close]
  else
    let body := compose (nums.map (fun v => v.getD (.finite false 0 0)))
      (if s_state.length ≠ 0 then s_state else bytes "UNKNOWN")
    if 1024 ≤ body.length then
      [.send_http 500 (bytes "Internal Server Error") CTYPE_JSON MSG_SERIAL, .close]
    else
      [.send_http 200 (bytes "OK") CTYPE_JSON body, .close]

/-- The function `handle_client(cfd)`. `rx` is what `recv` yields: `none` for an error
(`r < 0`), otherwise the bytes the peer has delivered, of which `recv` takes
at most `sizeof(req) - 1 = 2047`. `net` is what libcurl does if the fetch is
made. The result is the trace of the handler. -/
def handle_client (charSigned : Bool) (rx : Option (List Nat)) (net : CurlRun) : List Event :=
  match rx with
  | none => [.close]
  | some avail =>
    let req := avail.take 2047
    if req.length = 0 then [.close]
    else if !strncmp_eq (cstr req) (bytes "GET ") 4 then
      [.send_http 405 (bytes "Method Not Allowed") CTYPE_JSON MSG_METHOD, .close]
    else
      let fetched := fetch_upstream net buf_init
      if fetched.1 ≠ 0 ∨ fetched.2.data.isNone ∨ fetched.2.len = 0 then
        [.fetch, .send_http 502 (bytes "Bad Gateway") CTYPE_JSON MSG_GATEWAY, .close]
      else
        .fetch :: .extract :: respond charSigned (cstr (fetched.2.data.getD []))

/-- A fetch that libcurl completes without error and with a status below 400:
`fetch_upstream` returns `0`. -/
def fetchOk (net : CurlRun) : Prop :=
  net.handle = true ∧ net.rc = 0 ∧ net.http_code < 400

instance (net : CurlRun) : Decidable (fetchOk net) := by
  unfold fetchOk; infer_instance

/-! ## Reading a trace -/

/-- Is the event a call of `send_http`. -/
def Event.isSend : Event → Bool
  | .send_http _ _ _ _ => true
  | _ => false

/-- The handler wrote exactly one response and then closed the connection:
its `send_http` and `close` events are one `send_http` followed by one
`close`. -/
def respondsOnceThenCloses (tr : List Event) : Bool :=
  match tr.filter (fun e => e.isSend || e == .close) with
  | [e, .close] => e.isSend
  | _ => false

/-- The answer to a page that does not parse. -/
def PARSE_FAILURE : List Event :=
  [.send_http 500 (bytes "Internal Server Error") CTYPE_JSON MSG_PARSE, .close]

/-- The answer to a reading that does not fit the buffer. -/
def SERIAL_FAILURE : List Event :=
  [.send_http 500 (bytes "Internal Server Error") CTYPE_JSON MSG_SERIAL, .close]

/-! ## Vocabulary of the statements -/

/-- A string starts with digits, an optional decimal point and digits, with
at least one digit: its first byte is a digit, or it is a point and the
second byte is a digit. -/
def numericHead (s : List Nat) : Bool :=
  match s with
  | c :: rest =>
    isdigit c || (c == 46 && match rest with
      | d :: _ => isdigit d
      | [] => false)
  | [] => false

/-- A string starts with a numeric prefix: an optional sign, digits, an
optional decimal point, digits, with at least one digit. -/
def hasNumericPrefix (s : List Nat) : Bool := numericHead (s.drop (signLen s))

/-- What `strtod` converts: after leading white space, a numeric prefix, or
an optional sign followed by `inf` or `nan` in any letter case. -/
def strtodAccepts (s : List Nat) : Bool :=
  let u := s.dropWhile isspace
  hasNumericPrefix u || startsWithCI (u.drop (signLen u)) (bytes "inf") ||
    startsWithCI (u.drop (signLen u)) (bytes "nan")

/-- A rendering with exactly three digits after the decimal point: an
optional minus sign, at least one digit, a point, three digits. -/
def isFixed3 (r : List Nat) : Bool :=
  let u := match r with
    | 45 :: t => t
    | _ => r
  let ip := u.takeWhile isdigit
  decide (ip.length ≠ 0) && match u.drop ip.length with
    | [46, a, b, c] => isdigit a && isdigit b && isdigit c
    | _ => false

/-! ## Example pages -/

/-- One table row of a status page. -/
def exampleRow (label value : List Nat) : List Nat :=
  bytes "<tr><th>" ++ label ++ bytes "</th><td style=\x27text-align:left\x27>" ++ value ++
    bytes "</td></tr>"

/-- A status page with the nine rows in the program's order, followed by
`tail`. -/
def examplePage (values : List (List Nat)) (tail : List Nat) : List Nat :=
  ((LABELS.zip values).map (fun p => exampleRow p.1 p.2)).flatten ++ tail

/-- A plain `GET` request. -/
def GET_REQUEST : List Nat := bytes "GET / HTTP/1.1\r\n\r\n"

/-- Eight ordinary field values, for the fields after the voltage. -/
def OTHER_VALUES : List (List Nat) :=
  [bytes "0.170", bytes "39", bytes "41", bytes "12", bytes "0.95", bytes "0.123", bytes "1.5",
   bytes "1234.567"]

/-- The status codes of the responses in a trace. -/
def statusCodes (tr : List Event) : List Nat :=
  tr.filterMap (fun e => match e with
    | .send_http code _ _ _ => some code
    | _ => none)

/-- The nine `parse_value_after` results on a page, in the program's order. -/
def parsedFields (hay : List Nat) : List (Bool × List Nat) :=
  LABELS.map (fun label => parse_value_after hay label [] 64)

/-- The nine `to_double` results on the trimmed fields. -/
def fieldNumbers (charSigned : Bool) (hay : List Nat) : List (Option CDouble) :=
  (parsedFields hay).map (fun r => to_double (trim charSigned r.2))

/-- The nine required fields extract and parse: every `parse_value_after`
returns `true` and every `to_double` returns `0`. -/
def fieldsParse (charSigned : Bool) (hay : List Nat) : Bool :=
  (parsedFields hay).all (fun r => r.1) && (fieldNumbers charSigned hay).all (fun v => v.isSome)

/-- The nine numbers handed to `snprintf`. -/
def fieldValues (charSigned : Bool) (hay : List Nat) : List CDouble :=
  (fieldNumbers charSigned hay).map (fun v => v.getD (.finite false 0 0))

/-- The state string handed to `snprintf`:
`s_state[0] ? s_state : "UNKNOWN"` after `parse_state` and `trim`. -/
def stateValue (charSigned : Bool) (hay : List Nat) : List Nat :=
  if (trim charSigned (parse_state hay [] 32).2).length ≠ 0
  then trim charSigned (parse_state hay [] 32).2 else bytes "UNKNOWN"

/-- Field values whose renderings are long: two of 305 bytes, one of 145. -/
def LONG_VALUES : List (List Nat) :=
  [bytes "1e300", bytes "1e300", bytes "1e140", bytes "0", bytes "0", bytes "0", bytes "0",
   bytes "0", bytes "0"]

/-- The big ON/OFF label of a status page. -/
def STATE_ON : List Nat := bytes "<div style=\x27font-size:62px\x27>ON</div>"

/-! ## Well-formed pages -/

/-- A decimal literal: an optional sign (`some true` is `-`, `some false` is
`+`), digits, an optional decimal point, digits. -/
structure DecLit where
  sign : Option Bool
  ip : List Nat
  dot : Bool
  fp : List Nat
  deriving DecidableEq, Repr

/-- The text of a literal. -/
def DecLit.text (d : DecLit) : List Nat :=
  (match d.sign with
    | none => []
    | some true => [45]
    | some false => [43]) ++ d.ip ++ (if d.dot then 46 :: d.fp else [])

/-- The parts of a literal are digits, there are fraction digits only after a
point, and there is at least one digit. -/
def DecLit.wf (d : DecLit) : Prop :=
  (∀ c ∈ d.ip, isdigit c = true) ∧ (∀ c ∈ d.fp, isdigit c = true) ∧
  (d.dot = false → d.fp = []) ∧ 1 ≤ d.ip.length + d.fp.length

instance (d : DecLit) : Decidable d.wf := by
  unfold DecLit.wf; infer_instance

/-- The decimal value of a literal, `± digits / 10 ^ (number of fraction
digits)`, as the nearest `double`. -/
def DecLit.value (d : DecLit) : CDouble :=
  roundToDouble (d.sign == some true) (digitsVal 10 (d.ip ++ d.fp)) (10 ^ d.fp.length)

/-- A row of a page: the label, a filler, the marker, the literal between
`padL` and `padR` spaces, and `<`. -/
structure Row where
  label : List Nat
  filler : List Nat
  padL : Nat
  lit : DecLit
  padR : Nat
  deriving DecidableEq, Repr

/-- The value run of a row: the literal with its padding. -/
def Row.run (r : Row) : List Nat :=
  List.replicate r.padL 32 ++ r.lit.text ++ List.replicate r.padR 32

/-- The text of a row. -/
def Row.text (r : Row) : List Nat :=
  r.label ++ r.filler ++ MARKER ++ r.run ++ [LT]

/-- A well-formed row: one of the nine labels, a filler without NUL (the page
is a C string), a well-formed literal in a run of at most 63 bytes, and no
occurrence of a label or of the marker in the row other than the label at its
start and the marker before the run. -/
def Row.wf (r : Row) : Prop :=
  r.label ∈ LABELS ∧ 0 ∉ r.filler ∧ r.lit.wf ∧ r.run.length ≤ 63 ∧
  (∀ l ∈ LABELS, ∀ j < r.text.length, l <+: r.text.drop j → j = 0 ∧ l = r.label) ∧
  (∀ j < r.text.length, MARKER <+: r.text.drop j → j = r.label.length + r.filler.length)

instance (r : Row) : Decidable r.wf := by
  unfold Row.wf; infer_instance

/-- The page made of the given rows. -/
def pageOf (rows : List Row) : List Nat := (rows.map Row.text).flatten

/-- Nine rows, in an order other than the program's. -/
def EXAMPLE_ROWS : List Row :=
  [⟨bytes "Energy Total", bytes "</th><td ", 0, ⟨none, bytes "1234", true, bytes "567"⟩, 1⟩,
   ⟨bytes "Voltage", bytes "</th><td class=\x27v\x27 ", 1, ⟨none, bytes "233", false, []⟩, 0⟩,
   ⟨bytes "Power Factor", bytes "<td ", 0, ⟨some false, bytes "0", true, bytes "95"⟩, 0⟩,
   ⟨bytes "Current", bytes "</th><td ", 2, ⟨none, [], true, bytes "170"⟩, 2⟩,
   ⟨bytes "Reactive Power", bytes "</th><td ", 0, ⟨some true, bytes "12", true, []⟩, 0⟩,
   ⟨bytes "Active Power", bytes "</th><td ", 0, ⟨none, bytes "39", false, []⟩, 0⟩,
   ⟨bytes "Energy Yesterday", bytes "</th><td ", 0, ⟨none, bytes "1", true, bytes "5"⟩, 0⟩,
   ⟨bytes "Apparent Power", bytes "</th><td ", 0, ⟨none, bytes "41", false, []⟩, 0⟩,
   ⟨bytes "Energy Today", bytes "</th><td ", 0, ⟨none, bytes "0", true, bytes "123"⟩, 0⟩]

/-! ## Occurrences -/

/-- The first occurrence of `needle` in `hay` is at offset `i`: `needle`
stands at `i` and at no smaller offset. -/
def firstOcc (needle hay : List Nat) (i : Nat) : Prop :=
  needle <+: hay.drop i ∧ ∀ j < i, ¬ needle <+: hay.drop j

instance (needle hay : List Nat) (i : Nat) : Decidable (firstOcc needle hay i) := by
  unfold firstOcc; infer_instance

/-- A page whose voltage row has no value cell: the first marker after the
label `Voltage` is the one of the row of the current. -/
def PAGE_MARKER_IN_NEXT_ROW : List Nat :=
  bytes "<tr><th>Voltage</th><td>n/a</td></tr>" ++ exampleRow (bytes "Current") (bytes "0.170")

/-- A page with two rows of the voltage. -/
def PAGE_LABEL_TWICE : List Nat :=
  bytes "<h1>meter</h1>" ++ exampleRow (bytes "Voltage") (bytes "233") ++
    exampleRow (bytes "Voltage") (bytes "999")

/-- The bytes the left-trim loop names: space, tab, LF, CR, `0xC2`, `0xA0`. -/
def LEFT_SET : List Nat := [32, 9, 10, 13, 0xC2, 0xA0]

/-- The bytes the right-trim loop names: space, tab, LF, CR. -/
def RIGHT_SET : List Nat := [32, 9, 10, 13]

/-- Is the byte one of `LEFT_SET`. -/
def inLeftSet (b : Nat) : Bool := decide (b ∈ LEFT_SET)

/-- Is the byte one of `RIGHT_SET`. -/
def inRightSet (b : Nat) : Bool := decide (b ∈ RIGHT_SET)

/-- The number read for a label on a page: `to_double` of the trimmed output
of `parse_value_after`. -/
def fieldValue (charSigned : Bool) (hay label : List Nat) : Option CDouble :=
  to_double (trim charSigned (parse_value_after hay label [] 64).2)

/-! # Theorems -/

/-! ## Lemmas on the string functions -/

theorem bytes_GET : bytes "GET " = [71, 69, 84, 32] := by decide

theorem strncmp_eq_iff (a b : List Nat) (n : Nat) :
    strncmp_eq a b n = true ↔ a.take n = b.take n := by
  induction n generalizing a b with
  | zero => simp [strncmp_eq]
  | succ n ih =>
    cases a with
    | nil => cases b <;> simp [strncmp_eq]
    | cons x xs =>
      cases b with
      | nil => simp [strncmp_eq]
      | cons y ys => simp [strncmp_eq, ih]

theorem cstr_nil : cstr [] = [] := rfl

theorem cstr_cons (a : Nat) (l : List Nat) :
    cstr (a :: l) = if a = 0 then [] else a :: cstr l := by
  by_cases h : a = 0 <;> simp [cstr, List.takeWhile_cons, h]

theorem cstr_isPrefix (l : List Nat) : cstr l <+: l := List.takeWhile_prefix _

theorem zero_not_mem_cstr (l : List Nat) : 0 ∉ cstr l := by
  intro h
  have := List.mem_takeWhile_imp h
  simp at this

theorem cstr_of_zero_not_mem (l : List Nat) (h : 0 ∉ l) : cstr l = l := by
  unfold cstr
  rw [List.takeWhile_eq_self_iff]
  intro x hx
  have : x ≠ 0 := fun h0 => h (h0 ▸ hx)
  simpa using this

theorem startsWith_iff (hay needle : List Nat) :
    startsWith hay needle = true ↔ needle <+: hay := by
  induction needle generalizing hay with
  | nil => simp [startsWith]
  | cons b bs ih =>
    cases hay with
    | nil => simp [startsWith]
    | cons a as =>
      simp only [startsWith, Bool.and_eq_true, beq_iff_eq, ih, List.cons_prefix_cons]
      constructor
      · rintro ⟨h1, h2⟩; exact ⟨h1.symm, h2⟩
      · rintro ⟨h1, h2⟩; exact ⟨h1.symm, h2⟩

theorem prefix_cstr_iff (w req : List Nat) (hw : 0 ∉ w) : w <+: cstr req ↔ w <+: req := by
  induction w generalizing req with
  | nil => simp
  | cons x xs ih =>
    have hx : x ≠ 0 := fun h => hw (by simp [h])
    have hxs : 0 ∉ xs := fun h => hw (by simp [h])
    cases req with
    | nil => simp [cstr_nil]
    | cons y ys =>
      rw [cstr_cons]
      by_cases hy : y = 0
      · subst hy; simp [List.cons_prefix_cons, hx]
      · simp [hy, List.cons_prefix_cons, ih ys hxs]

theorem take_eq_iff_isPrefix (w l : List Nat) : l.take w.length = w ↔ w <+: l := by
  constructor
  · intro h; rw [← h]; exact List.take_prefix _ _
  · intro h; exact (List.prefix_iff_eq_take.mp h).symm

theorem strncmp_GET (req : List Nat) :
    strncmp_eq (cstr req) (bytes "GET ") 4 = true ↔ req.take 4 = bytes "GET " := by
  rw [strncmp_eq_iff, bytes_GET]
  have h1 := take_eq_iff_isPrefix [71, 69, 84, 32] (cstr req)
  have h2 := take_eq_iff_isPrefix [71, 69, 84, 32] req
  have h3 := prefix_cstr_iff [71, 69, 84, 32] req (by decide)
  simp only [List.length_cons, List.length_nil] at h1 h2
  simp only [List.take_succ_cons, List.take_zero]
  exact h1.trans (h3.trans h2.symm)

/-- The occurrences of `needle` in `hay` are what `strstr` looks for: it
returns NULL exactly when there is none. -/
theorem strstr_eq_none_iff (hay needle : List Nat) :
    strstr hay needle = none ↔ ¬ needle <:+: hay := by
  induction hay with
  | nil =>
    cases needle with
    | nil => simp [strstr, startsWith]
    | cons b bs => simp [strstr, startsWith]
  | cons a as ih =>
    unfold strstr
    by_cases h : startsWith (a :: as) needle = true
    · simp only [h, if_true]
      have := (startsWith_iff _ _).mp h
      simp [this.isInfix]
    · have h2 : ¬ needle <+: a :: as := fun hp => h ((startsWith_iff _ _).mpr hp)
      have hb : startsWith (a :: as) needle = false := by simpa using h
      simp only [hb, Bool.false_eq_true, if_false, Option.map_eq_none', List.infix_cons_iff, h2,
        false_or]
      exact ih

/-! ## Lemmas on the fetch -/

theorem foldl_write_data (chunks : List (List Nat)) (b : buf_t) :
    (chunks.foldl curl_write_cb b).data =
      if chunks = [] then b.data else some (b.data.getD [] ++ chunks.flatten) := by
  induction chunks generalizing b with
  | nil => simp
  | cons c cs ih =>
    simp only [List.foldl_cons, ih, curl_write_cb]
    by_cases h : cs = [] <;> simp [h]

theorem foldl_write_len (chunks : List (List Nat)) (b : buf_t) :
    (chunks.foldl curl_write_cb b).len = b.len + chunks.flatten.length := by
  induction chunks generalizing b with
  | nil => simp
  | cons c cs ih =>
    simp only [List.foldl_cons, ih, curl_write_cb, List.flatten_cons, List.length_append]
    omega

theorem fetch_ret_eq_zero_iff (net : CurlRun) (out : buf_t) :
    (fetch_upstream net out).1 = 0 ↔ fetchOk net := by
  unfold fetch_upstream fetchOk
  by_cases h : net.handle = true
  · by_cases h2 : net.rc ≠ 0 ∨ 400 ≤ net.http_code
    · simp only [h, Bool.not_true, Bool.false_eq_true, if_false, h2, if_true]
      constructor
      · intro h3; simp at h3
      · rintro ⟨_, h4, h5⟩; rcases h2 with h2 | h2
        · exact absurd h4 h2
        · omega
    · simp only [h, Bool.not_true, Bool.false_eq_true, if_false, h2, if_false, true_and, true_iff]
      push_neg at h2
      exact ⟨h2.1, h2.2⟩
  · simp [h]

theorem fetch_buf (net : CurlRun) (h : fetchOk net) :
    (fetch_upstream net buf_init).2.len = net.chunks.flatten.length ∧
    (fetch_upstream net buf_init).2.data.getD [] = net.chunks.flatten := by
  obtain ⟨h1, h2, h3⟩ := h
  have h4 : ¬ (400 ≤ net.http_code) := by omega
  unfold fetch_upstream
  simp only [h1, Bool.not_true, Bool.false_eq_true, if_false, h2, ne_eq, not_true_eq_false,
    h4, or_self, foldl_write_len, foldl_write_data, buf_init]
  constructor
  · simp
  · by_cases h5 : net.chunks = [] <;> simp [h5]

/-! ## The handler's answers -/

theorem respond_eq (cs : Bool) (hay : List Nat) :
    respond cs hay =
      if (!(LABELS.map (fun label => parse_value_after hay label [] 64)).all (fun r => r.1) ||
          ((LABELS.map (fun label => parse_value_after hay label [] 64)).map
            (fun r => to_double (trim cs r.2))).any (fun v => v.isNone)) = true then
        PARSE_FAILURE
      else if 1024 ≤ (compose
          (((LABELS.map (fun label => parse_value_after hay label [] 64)).map
            (fun r => to_double (trim cs r.2))).map (fun v => v.getD (.finite false 0 0)))
          (if (trim cs (parse_state hay [] 32).2).length ≠ 0
            then trim cs (parse_state hay [] 32).2 else bytes "UNKNOWN")).length then
        SERIAL_FAILURE
      else
        [.send_http 200 (bytes "OK") CTYPE_JSON (compose
          (((LABELS.map (fun label => parse_value_after hay label [] 64)).map
            (fun r => to_double (trim cs r.2))).map (fun v => v.getD (.finite false 0 0)))
          (if (trim cs (parse_state hay [] 32).2).length ≠ 0
            then trim cs (parse_state hay [] 32).2 else bytes "UNKNOWN")), .close] := rfl

theorem respond_cases (cs : Bool) (hay : List Nat) :
    respond cs hay = PARSE_FAILURE ∨ respond cs hay = SERIAL_FAILURE ∨
    ∃ body, body.length < 1024 ∧
      respond cs hay = [.send_http 200 (bytes "OK") CTYPE_JSON body, .close] := by
  rw [respond_eq]
  by_cases h1 : (!(LABELS.map (fun label => parse_value_after hay label [] 64)).all (fun r => r.1) ||
          ((LABELS.map (fun label => parse_value_after hay label [] 64)).map
            (fun r => to_double (trim cs r.2))).any (fun v => v.isNone)) = true
  · rw [if_pos h1]; exact Or.inl rfl
  · rw [if_neg h1]
    by_cases h2 : 1024 ≤ (compose
          (((LABELS.map (fun label => parse_value_after hay label [] 64)).map
            (fun r => to_double (trim cs r.2))).map (fun v => v.getD (.finite false 0 0)))
          (if (trim cs (parse_state hay [] 32).2).length ≠ 0
            then trim cs (parse_state hay [] 32).2 else bytes "UNKNOWN")).length
    · rw [if_pos h2]; exact Or.inr (Or.inl rfl)
    · rw [if_neg h2]; exact Or.inr (Or.inr ⟨_, by omega, rfl⟩)

theorem respond_of_not_ok (cs : Bool) (hay label : List Nat) (hl : label ∈ LABELS)
    (h : (parse_value_after hay label [] 64).1 = false) : respond cs hay = PARSE_FAILURE := by
  rw [respond_eq]
  have hall : (LABELS.map (fun label => parse_value_after hay label [] 64)).all (fun r => r.1)
      = false := by
    rw [List.all_eq_false]
    exact ⟨_, List.mem_map.mpr ⟨label, hl, rfl⟩, by simp [h]⟩
  rw [hall]
  rfl

theorem parse_value_after_of_absent (hay label out : List Nat) (n : Nat)
    (h : ¬ label <:+: hay) : parse_value_after hay label out n = (false, out) := by
  unfold parse_value_after
  rw [(strstr_eq_none_iff hay label).mpr h]

theorem handle_client_some (cs : Bool) (avail : List Nat) (net : CurlRun) :
    handle_client cs (some avail) net =
      if (avail.take 2047).length = 0 then [.close]
      else if !strncmp_eq (cstr (avail.take 2047)) (bytes "GET ") 4 then
        [.send_http 405 (bytes "Method Not Allowed") CTYPE_JSON MSG_METHOD, .close]
      else if (fetch_upstream net buf_init).1 ≠ 0 ∨ (fetch_upstream net buf_init).2.data.isNone ∨
          (fetch_upstream net buf_init).2.len = 0 then
        [.fetch, .send_http 502 (bytes "Bad Gateway") CTYPE_JSON MSG_GATEWAY, .close]
      else .fetch :: .extract ::
        respond cs (cstr ((fetch_upstream net buf_init).2.data.getD [])) := rfl

theorem handle_client_get (cs : Bool) (avail : List Nat) (net : CurlRun)
    (hget : (avail.take 2047).take 4 = bytes "GET ") :
    handle_client cs (some avail) net =
      if fetchOk net ∧ net.chunks.flatten ≠ [] then
        .fetch :: .extract :: respond cs (cstr net.chunks.flatten)
      else [.fetch, .send_http 502 (bytes "Bad Gateway") CTYPE_JSON MSG_GATEWAY, .close] := by
  rw [handle_client_some]
  generalize avail.take 2047 = req at hget ⊢
  have hne : req.length ≠ 0 := by
    intro h0
    rw [List.length_eq_zero] at h0
    rw [h0] at hget
    exact absurd hget (by decide)
  have hcmp := (strncmp_GET req).mpr hget
  rw [if_neg hne, hcmp]
  simp only [Bool.not_true, Bool.false_eq_true, if_false]
  by_cases hok : fetchOk net
  · have hb := fetch_buf net hok
    have hr := (fetch_ret_eq_zero_iff net buf_init).mpr hok
    by_cases hbody : net.chunks.flatten = []
    · have hlen : (fetch_upstream net buf_init).2.len = 0 := by rw [hb.1, hbody]; rfl
      rw [if_pos (show ((fetch_upstream net buf_init).1 ≠ 0 ∨
          (fetch_upstream net buf_init).2.data.isNone = true ∨
          (fetch_upstream net buf_init).2.len = 0) from Or.inr (Or.inr hlen)),
        if_neg (show ¬ (fetchOk net ∧ net.chunks.flatten ≠ []) from fun h => h.2 hbody)]
    · have hlen : (fetch_upstream net buf_init).2.len ≠ 0 := by
        rw [hb.1]; exact fun h0 => hbody (List.length_eq_zero.mp h0)
      have hdata : (fetch_upstream net buf_init).2.data.isNone = false := by
        have h1 : net.chunks ≠ [] := fun h0 => hbody (by rw [h0]; rfl)
        unfold fetch_upstream
        obtain ⟨h2, h3, h4⟩ := hok
        have h5 : ¬ (400 ≤ net.http_code) := by omega
        simp [h2, h3, h5, foldl_write_data, h1]
      have hc : ¬ ((fetch_upstream net buf_init).1 ≠ 0 ∨
          (fetch_upstream net buf_init).2.data.isNone = true ∨
          (fetch_upstream net buf_init).2.len = 0) := by
        simp [hr, hdata, hlen]
      rw [if_neg hc, hb.2, if_pos (show fetchOk net ∧ net.chunks.flatten ≠ [] from ⟨hok, hbody⟩)]
  · have hr : (fetch_upstream net buf_init).1 ≠ 0 := fun h0 =>
      hok ((fetch_ret_eq_zero_iff net buf_init).mp h0)
    rw [if_pos (show ((fetch_upstream net buf_init).1 ≠ 0 ∨
          (fetch_upstream net buf_init).2.data.isNone = true ∨
          (fetch_upstream net buf_init).2.len = 0) from Or.inl hr),
      if_neg (show ¬ (fetchOk net ∧ net.chunks.flatten ≠ []) from fun h => hok h.1)]

theorem handle_client_not_get (cs : Bool) (avail : List Nat) (net : CurlRun)
    (hrecv : avail.take 2047 ≠ []) (hget : (avail.take 2047).take 4 ≠ bytes "GET ") :
    handle_client cs (some avail) net =
      [.send_http 405 (bytes "Method Not Allowed") CTYPE_JSON MSG_METHOD, .close] := by
  rw [handle_client_some]
  generalize avail.take 2047 = req at hget hrecv ⊢
  have hne : req.length ≠ 0 := fun h0 => hrecv (List.length_eq_zero.mp h0)
  have hcmp : strncmp_eq (cstr req) (bytes "GET ") 4 = false := by
    rw [← Bool.not_eq_true, strncmp_GET]; exact hget
  rw [if_neg hne, hcmp]
  rfl

/-- C3. A received request whose first four bytes are not `GET ` is answered
with status 405 and the body `MSG_METHOD`, and `fetch_upstream` is not
called; a request that begins with `GET ` is never answered with 405. -/
theorem method_not_allowed (charSigned : Bool) (avail : List Nat) (net : CurlRun)
    (hrecv : avail.take 2047 ≠ []) :
    ((avail.take 2047).take 4 ≠ bytes "GET " →
      handle_client charSigned (some avail) net =
        [.send_http 405 (bytes "Method Not Allowed") CTYPE_JSON MSG_METHOD, .close] ∧
      Event.fetch ∉ handle_client charSigned (some avail) net) ∧
    ((avail.take 2047).take 4 = bytes "GET " →
      ∀ status ctype body,
        Event.send_http 405 status ctype body ∉ handle_client charSigned (some avail) net) := by
  constructor
  · intro hget
    have h := handle_client_not_get charSigned avail net hrecv hget
    refine ⟨h, ?_⟩
    rw [h]
    simp
  · intro hget status ctype body
    rw [handle_client_get charSigned avail net hget]
    split
    · rcases respond_cases charSigned (cstr net.chunks.flatten) with h | h | ⟨b, _, h⟩ <;>
        rw [h] <;> simp [PARSE_FAILURE, SERIAL_FAILURE]
    · simp

/-- C3, at a `POST` request and at a `GET` request. -/
theorem method_not_allowed_witness :
    (handle_client false (some (bytes "POST / HTTP/1.1\r\n\r\n")) ⟨true, 0, 200, [bytes "x"]⟩ =
        [.send_http 405 (bytes "Method Not Allowed") CTYPE_JSON MSG_METHOD, .close] ∧
      Event.fetch ∉
        handle_client false (some (bytes "POST / HTTP/1.1\r\n\r\n")) ⟨true, 0, 200, [bytes "x"]⟩) ∧
    (∀ status ctype body, Event.send_http 405 status ctype body ∉
        handle_client false (some (bytes "GET / HTTP/1.1\r\n\r\n")) ⟨true, 0, 200, [bytes "x"]⟩) :=
  ⟨(method_not_allowed false (bytes "POST / HTTP/1.1\r\n\r\n") ⟨true, 0, 200, [bytes "x"]⟩
      (by decide)).1 (by decide),
   (method_not_allowed false (bytes "GET / HTTP/1.1\r\n\r\n") ⟨true, 0, 200, [bytes "x"]⟩
      (by decide)).2 (by decide)⟩

/-- C4. For a request that begins with `GET `, when the fetch reports a
failure (no handle, a transport error or timeout, a status of 400 or more) or
delivers an empty body, the answer is status 502 with the body `MSG_GATEWAY`,
whatever was received from upstream, and the extraction is not reached. -/
theorem bad_gateway (charSigned : Bool) (avail : List Nat) (net : CurlRun)
    (hget : (avail.take 2047).take 4 = bytes "GET ")
    (hfail : net.handle = false ∨ net.rc ≠ 0 ∨ 400 ≤ net.http_code ∨ net.chunks.flatten = []) :
    handle_client charSigned (some avail) net =
      [.fetch, .send_http 502 (bytes "Bad Gateway") CTYPE_JSON MSG_GATEWAY, .close] ∧
    Event.extract ∉ handle_client charSigned (some avail) net := by
  have h : handle_client charSigned (some avail) net =
      [.fetch, .send_http 502 (bytes "Bad Gateway") CTYPE_JSON MSG_GATEWAY, .close] := by
    rw [handle_client_get charSigned avail net hget]
    have hc : ¬ (fetchOk net ∧ net.chunks.flatten ≠ []) := by
      rintro ⟨⟨h1, h2, h3⟩, h4⟩
      rcases hfail with h | h | h | h
      · rw [h1] at h; exact absurd h (by decide)
      · exact h h2
      · omega
      · exact h4 h
    simp only [hc, if_false]
  refine ⟨h, ?_⟩
  rw [h]
  simp

/-- C4, at a timed-out fetch that had already delivered part of a page. -/
theorem bad_gateway_witness :
    handle_client false (some (bytes "GET / HTTP/1.1\r\n\r\n")) ⟨true, 28, 0, [bytes "<html>Volt"]⟩ =
      [.fetch, .send_http 502 (bytes "Bad Gateway") CTYPE_JSON MSG_GATEWAY, .close] ∧
    Event.extract ∉
      handle_client false (some (bytes "GET / HTTP/1.1\r\n\r\n")) ⟨true, 28, 0, [bytes "<html>Volt"]⟩ :=
  bad_gateway false (bytes "GET / HTTP/1.1\r\n\r\n") ⟨true, 28, 0, [bytes "<html>Volt"]⟩
    (by decide) (Or.inr (Or.inl (by decide)))

/-- C1. When one of the nine labels does not occur in the fetched body, a
`GET` request whose fetch succeeded is answered with status 500 and the body
`MSG_PARSE`, whatever else the body holds. -/
theorem missing_label_parse_failure (charSigned : Bool) (avail : List Nat) (net : CurlRun)
    (label : List Nat)
    (hget : (avail.take 2047).take 4 = bytes "GET ")
    (hok : fetchOk net) (hbody : net.chunks.flatten ≠ [])
    (hl : label ∈ LABELS) (hmiss : ¬ label <:+: net.chunks.flatten) :
    handle_client charSigned (some avail) net =
      [.fetch, .extract,
       .send_http 500 (bytes "Internal Server Error") CTYPE_JSON MSG_PARSE, .close] := by
  rw [handle_client_get charSigned avail net hget]
  rw [if_pos ⟨hok, hbody⟩]
  have hm : ¬ label <:+: cstr net.chunks.flatten := fun h =>
    hmiss (h.trans (cstr_isPrefix _).isInfix)
  have h1 := parse_value_after_of_absent (cstr net.chunks.flatten) label [] 64 hm
  rw [respond_of_not_ok charSigned _ label hl (by rw [h1])]
  rfl

/-! ## One answer per connection -/

theorem respondsOnce_respond (cs : Bool) (hay : List Nat) :
    respondsOnceThenCloses (.fetch :: .extract :: respond cs hay) = true := by
  rcases respond_cases cs hay with h | h | ⟨b, _, h⟩ <;> rw [h] <;> rfl

/-- C10, as the code has it. On a connection on which `recv` delivers at
least one byte, whatever the bytes and whatever the upstream outcome,
`handle_client` calls `send_http` exactly once and then closes the
connection; when `recv` fails or delivers nothing it only closes the
connection. -/
theorem one_response_when_received :
    (∀ (charSigned : Bool) (avail : List Nat) (net : CurlRun), avail ≠ [] →
      respondsOnceThenCloses (handle_client charSigned (some avail) net) = true) ∧
    (∀ (charSigned : Bool) (net : CurlRun),
      handle_client charSigned none net = [.close] ∧
      handle_client charSigned (some []) net = [.close]) := by
  constructor
  · intro cs avail net hne
    have hrecv : avail.take 2047 ≠ [] := by
      cases avail with
      | nil => exact absurd rfl hne
      | cons a as => simp
    by_cases hget : (avail.take 2047).take 4 = bytes "GET "
    · rw [handle_client_get cs avail net hget]
      split
      · exact respondsOnce_respond cs _
      · rfl
    · rw [handle_client_not_get cs avail net hrecv hget]
      rfl
  · intro cs net
    exact ⟨rfl, rfl⟩

/-- C10 as amended, at a one-byte request. -/
theorem one_response_when_received_witness :
    respondsOnceThenCloses (handle_client false (some [71]) ⟨true, 0, 200, [bytes "x"]⟩) = true :=
  one_response_when_received.1 false [71] ⟨true, 0, 200, [bytes "x"]⟩ (by decide)

/-- C10 as stated fails: on a connection that delivers no byte the handler
closes without writing a response. -/
theorem no_response_without_request :
    handle_client false (some []) ⟨true, 0, 200, [bytes "x"]⟩ = [.close] ∧
    respondsOnceThenCloses (handle_client false (some []) ⟨true, 0, 200, [bytes "x"]⟩) = false := by
  decide

/-! ## Trimming -/

theorem isRightTrim_imp_isLeftTrim (cs : Bool) (b : Nat) (h : isRightTrim cs b = true) :
    isLeftTrim cs b = true := by
  unfold isRightTrim at h
  unfold isLeftTrim
  simp only [Bool.or_eq_true] at h ⊢
  tauto

theorem isLeftTrim_zero (cs : Bool) : isLeftTrim cs 0 = false := by
  cases cs <;> decide

/-- The string left by the left-trim loop and `memmove`. -/
theorem trim_eq (cs : Bool) (s : List Nat) :
    trim cs s = (cstr (s.dropWhile (isLeftTrim cs))).rdropWhile (isRightTrim cs) := rfl

theorem head_cstr_dropWhile (cs : Bool) (s : List Nat) (x : Nat)
    (h : (cstr (s.dropWhile (isLeftTrim cs))).head? = some x) : isLeftTrim cs x = false := by
  induction s with
  | nil => simp [cstr] at h
  | cons a as ih =>
    rw [List.dropWhile_cons] at h
    by_cases ha : isLeftTrim cs a = true
    · rw [if_pos ha] at h; exact ih h
    · rw [if_neg ha, cstr_cons] at h
      by_cases h0 : a = 0
      · rw [if_pos h0] at h; simp at h
      · rw [if_neg h0] at h
        simp only [List.head?_cons, Option.some.injEq] at h
        rw [← h]; simpa using ha

theorem trim_isPrefix (cs : Bool) (s : List Nat) :
    trim cs s <+: cstr (s.dropWhile (isLeftTrim cs)) := List.rdropWhile_prefix _ _

theorem zero_not_mem_trim (cs : Bool) (s : List Nat) : 0 ∉ trim cs s := fun h =>
  zero_not_mem_cstr _ ((trim_isPrefix cs s).subset h)

theorem head_trim (cs : Bool) (s : List Nat) (x : Nat) (h : (trim cs s).head? = some x) :
    isLeftTrim cs x = false := by
  apply head_cstr_dropWhile cs s x
  obtain ⟨t, ht⟩ := trim_isPrefix cs s
  rw [← ht]
  cases hts : trim cs s with
  | nil => rw [hts] at h; simp at h
  | cons y ys => rw [hts] at h; simpa using h

theorem dropWhile_trim (cs : Bool) (s : List Nat) :
    (trim cs s).dropWhile (isLeftTrim cs) = trim cs s := by
  cases hts : trim cs s with
  | nil => rfl
  | cons y ys =>
    have := head_trim cs s y (by rw [hts]; rfl)
    rw [List.dropWhile_cons, if_neg (by simp [this])]

/-- C5. Trimming is idempotent. -/
theorem trim_idempotent (charSigned : Bool) (s : List Nat) :
    trim charSigned (trim charSigned s) = trim charSigned s := by
  conv_lhs => rw [trim_eq, dropWhile_trim, cstr_of_zero_not_mem _ (zero_not_mem_trim _ _)]
  rw [trim_eq]
  exact List.rdropWhile_idempotent _ _

/-- C6 fails on the code: the right-trim loop does not test for `0xC2` and
`0xA0`, so the field value `1` followed by a non-breaking space comes out of
`trim` unchanged, ending with the sequence `0xC2 0xA0`, whether `char` is
signed or not; and where `char` is signed the left loop's tests for `0xC2`
and `0xA0` are never true, so a leading non-breaking space stays as well. -/
theorem trim_keeps_trailing_nbsp :
    (∀ charSigned, trim charSigned [49, 0xC2, 0xA0] = [49, 0xC2, 0xA0]) ∧
    trim true [0xC2, 0xA0, 49] = [0xC2, 0xA0, 49] ∧
    trim false [0xC2, 0xA0, 49] = [49] := by
  decide

set_option maxRecDepth 100000 in
/-- C1, at a page without the label `Power Factor`. -/
theorem missing_label_parse_failure_witness :
    handle_client false (some GET_REQUEST)
        ⟨true, 0, 200, [exampleRow (bytes "Voltage") (bytes "233"), bytes "<p>no more rows</p>"]⟩ =
      [.fetch, .extract,
       .send_http 500 (bytes "Internal Server Error") CTYPE_JSON MSG_PARSE, .close] :=
  missing_label_parse_failure false GET_REQUEST
    ⟨true, 0, 200, [exampleRow (bytes "Voltage") (bytes "233"), bytes "<p>no more rows</p>"]⟩
    (bytes "Power Factor") (by decide) (by decide) (by decide) (by decide) (by decide)

/-! ## What `to_double` accepts -/

theorem drop_length_takeWhile (p : Nat → Bool) (s : List Nat) :
    s.drop (s.takeWhile p).length = s.dropWhile p := by
  induction s with
  | nil => rfl
  | cons a as ih =>
    by_cases h : p a = true
    · simp [List.takeWhile_cons, List.dropWhile_cons, h, ih]
    · simp [List.takeWhile_cons, List.dropWhile_cons, h]

theorem parseMantissa_isSome (t : List Nat) :
    (parseMantissa isdigit t).isSome = numericHead t := by
  cases t with
  | nil => rfl
  | cons c rest =>
    by_cases hc : isdigit c = true
    · have hip : ((c :: rest).takeWhile isdigit).length ≠ 0 := by
        simp [List.takeWhile_cons, hc]
      unfold parseMantissa numericHead
      simp only [hc, Bool.true_or]
      split
      · rw [if_neg (by omega)]; rfl
      · rw [if_neg hip]; rfl
    · have hip : (c :: rest).takeWhile isdigit = [] := by
        simp [List.takeWhile_cons, hc]
      have hcf : isdigit c = false := by simpa using hc
      unfold parseMantissa numericHead
      simp only [hip, List.length_nil, List.drop_zero, hcf, Bool.false_or]
      by_cases h46 : c = 46
      · subst h46
        cases rest with
        | nil => rfl
        | cons d r =>
          by_cases hd : isdigit d = true
          · simp [List.takeWhile_cons, hd]
          · simp [List.takeWhile_cons, hd]
      · have : (c == 46) = false := by simpa using h46
        rw [this]
        split
        · rename_i heq
          simp only [List.cons.injEq] at heq
          exact absurd heq.1 h46
        · rfl

theorem parseMantissa_pos (isdig : Nat → Bool) (t ip fp : List Nat) (n : Nat)
    (h : parseMantissa isdig t = some (ip, fp, n)) : 1 ≤ n := by
  unfold parseMantissa at h
  dsimp only at h
  split at h
  · split at h
    · exact absurd h (by simp)
    · simp only [Option.some.injEq, Prod.mk.injEq] at h
      omega
  · split at h
    · exact absurd h (by simp)
    · simp only [Option.some.injEq, Prod.mk.injEq] at h
      omega

theorem numericHead_of_hex (t : List Nat) (h : startsWithCI t (bytes "0x") = true) :
    numericHead t = true := by
  cases t with
  | nil => exact absurd h (by decide)
  | cons c rest =>
    have h1 : bytes "0x" = [48, 120] := by decide
    rw [h1] at h
    unfold startsWithCI at h
    simp only [List.map_cons, startsWith, Bool.and_eq_true, beq_iff_eq] at h
    have hc : c = 48 := by
      have := h.1
      unfold tolower at this
      split at this <;> omega
    subst hc
    rfl

theorem parseSubject_isSome (neg : Bool) (t : List Nat) :
    (parseSubject neg t).isSome =
      (numericHead t || startsWithCI t (bytes "inf") || startsWithCI t (bytes "nan")) := by
  unfold parseSubject
  by_cases h1 : startsWithCI t (bytes "infinity") = true
  · have h2 : startsWithCI t (bytes "inf") = true := by
      unfold startsWithCI at h1 ⊢
      rw [startsWith_iff] at h1 ⊢
      exact (show bytes "inf" <+: bytes "infinity" by decide).trans h1
    simp [h1, h2]
  · rw [if_neg h1]
    by_cases h2 : startsWithCI t (bytes "inf") = true
    · simp [h2]
    · rw [if_neg h2]
      by_cases h3 : startsWithCI t (bytes "nan") = true
      · simp [h3]
      · rw [if_neg h3]
        have h2f : startsWithCI t (bytes "inf") = false := by simpa using h2
        have h3f : startsWithCI t (bytes "nan") = false := by simpa using h3
        rw [h2f, h3f, Bool.or_false, Bool.or_false, ← parseMantissa_isSome]
        by_cases h4 : startsWithCI t (bytes "0x") = true
        · simp only [h4, if_true]
          have hn := numericHead_of_hex t h4
          rw [← parseMantissa_isSome] at hn
          cases hx : parseMantissa isxdigit (t.drop 2) with
          | some r => simp [hn]
          | none =>
            simp only []
            cases hd : parseMantissa isdigit t with
            | none => rfl
            | some r => rfl
        · simp only [h4, Bool.false_eq_true, if_false]
          cases hd : parseMantissa isdigit t with
          | none => rfl
          | some r => rfl

theorem parseSubject_pos (neg : Bool) (t : List Nat) (v : CDouble) (n : Nat)
    (h : parseSubject neg t = some (v, n)) : 1 ≤ n := by
  unfold parseSubject at h
  split at h
  · simp only [Option.some.injEq, Prod.mk.injEq] at h; omega
  · split at h
    · simp only [Option.some.injEq, Prod.mk.injEq] at h; omega
    · split at h
      · simp only [Option.some.injEq, Prod.mk.injEq] at h; omega
      · simp only [] at h
        split at h
        · simp only [Option.some.injEq, Prod.mk.injEq] at h; omega
        · split at h
          · exact absurd h (by simp)
          · rename_i ip fp m hm
            have := parseMantissa_pos _ _ _ _ _ hm
            simp only [Option.some.injEq, Prod.mk.injEq] at h; omega

theorem to_double_isSome (s : List Nat) : (to_double s).isSome = strtodAccepts s := by
  unfold to_double strtod strtodAccepts hasNumericPrefix
  simp only [drop_length_takeWhile]
  rw [← parseSubject_isSome (isNeg (s.dropWhile isspace))]
  cases h : parseSubject (isNeg (s.dropWhile isspace))
      ((s.dropWhile isspace).drop (signLen (s.dropWhile isspace))) with
  | none => simp
  | some r =>
    obtain ⟨v, n⟩ := r
    have := parseSubject_pos _ _ _ _ h
    have hne : ¬ ((s.takeWhile isspace).length + signLen (s.dropWhile isspace) + n = 0) := by
      omega
    simp [hne]
theorem dropWhile_append_of_ne_nil (p : Nat → Bool) (s t : List Nat)
    (h : s.dropWhile p ≠ []) : (s ++ t).dropWhile p = s.dropWhile p ++ t := by
  induction s with
  | nil => exact absurd rfl h
  | cons a as ih =>
    by_cases ha : p a = true
    · simp only [List.cons_append, List.dropWhile_cons, ha, if_true] at h ⊢
      exact ih h
    · simp [List.dropWhile_cons, ha]

theorem startsWithCI_append (a t w : List Nat) (h : startsWithCI a w = true) :
    startsWithCI (a ++ t) w = true := by
  unfold startsWithCI at h ⊢
  rw [startsWith_iff] at h ⊢
  rw [List.map_append]
  exact h.trans (List.prefix_append _ _)

theorem numericHead_append (a t : List Nat) (h : numericHead a = true) :
    numericHead (a ++ t) = true := by
  cases a with
  | nil => exact absurd h (by decide)
  | cons c rest =>
    cases rest with
    | nil =>
      unfold numericHead at h ⊢
      simp only [Bool.and_false, Bool.or_false] at h
      simp [h]
    | cons d r => exact h

theorem signLen_le_length (u : List Nat) : signLen u ≤ u.length := by
  cases u with
  | nil => exact Nat.le_refl _
  | cons c r =>
    show (if c = 45 ∨ c = 43 then 1 else 0) ≤ (c :: r).length
    split_ifs <;> simp

theorem signLen_append (u t : List Nat) (h : u ≠ []) : signLen (u ++ t) = signLen u := by
  cases u with
  | nil => exact absurd rfl h
  | cons c r => rfl

theorem strtodAccepts_append (s t : List Nat) (h : strtodAccepts s = true) :
    strtodAccepts (s ++ t) = true := by
  unfold strtodAccepts hasNumericPrefix at h ⊢
  have hne : s.dropWhile isspace ≠ [] := by
    intro h0
    rw [h0] at h
    exact absurd h (by decide)
  simp only [dropWhile_append_of_ne_nil isspace s t hne, signLen_append _ t hne,
    List.drop_append_of_le_length (signLen_le_length _)]
  simp only [Bool.or_eq_true] at h ⊢
  rcases h with (h | h) | h
  · exact Or.inl (Or.inl (numericHead_append _ _ h))
  · exact Or.inl (Or.inr (startsWithCI_append _ _ _ h))
  · exact Or.inr (startsWithCI_append _ _ _ h)

theorem respond_of_not_numeric (cs : Bool) (hay label : List Nat) (hl : label ∈ LABELS)
    (h : to_double (trim cs (parse_value_after hay label [] 64).2) = none) :
    respond cs hay = PARSE_FAILURE := by
  rw [respond_eq]
  have hany : ((LABELS.map (fun label => parse_value_after hay label [] 64)).map
      (fun r => to_double (trim cs r.2))).any (fun v => v.isNone) = true := by
    rw [List.any_eq_true]
    refine ⟨none, ?_, rfl⟩
    rw [List.mem_map]
    exact ⟨_, List.mem_map.mpr ⟨label, hl, rfl⟩, h⟩
  rw [hany, Bool.or_true, if_pos rfl]

/-- C7, as the code has it. `to_double` succeeds exactly when, after leading
white space, the string starts with a numeric prefix (optional sign, digits,
optional decimal point, digits, with at least one digit) or with an optional
sign and `inf` or `nan` in any letter case; whatever follows such a start is
not an error; `N/A` and the empty string fail; and when `to_double` fails on
one of the nine trimmed fields, a `GET` request with a successful fetch is
answered with status 500 and the body `MSG_PARSE`. -/
theorem to_double_accepts :
    (∀ s : List Nat, (to_double s).isSome = true ↔ strtodAccepts s = true) ∧
    (∀ s t : List Nat, (to_double s).isSome = true → (to_double (s ++ t)).isSome = true) ∧
    to_double (bytes "N/A") = none ∧ to_double [] = none ∧
    (∀ (charSigned : Bool) (avail : List Nat) (net : CurlRun) (label : List Nat),
      (avail.take 2047).take 4 = bytes "GET " → fetchOk net → net.chunks.flatten ≠ [] →
      label ∈ LABELS →
      to_double (trim charSigned
        (parse_value_after (cstr net.chunks.flatten) label [] 64).2) = none →
      handle_client charSigned (some avail) net =
        [.fetch, .extract,
         .send_http 500 (bytes "Internal Server Error") CTYPE_JSON MSG_PARSE, .close]) := by
  refine ⟨fun s => by rw [to_double_isSome], ?_, by decide, by decide, ?_⟩
  · intro s t h
    rw [to_double_isSome] at h ⊢
    exact strtodAccepts_append s t h
  · intro cs avail net label hget hok hbody hl hnone
    rw [handle_client_get cs avail net hget, if_pos ⟨hok, hbody⟩,
      respond_of_not_numeric cs _ label hl hnone]
    rfl

set_option maxRecDepth 1000000 in
/-- C7 as amended, at a page whose voltage cell holds `N/A`. -/
theorem to_double_accepts_witness :
    handle_client false (some GET_REQUEST)
        ⟨true, 0, 200, [examplePage (bytes "N/A" :: OTHER_VALUES) []]⟩ =
      [.fetch, .extract,
       .send_http 500 (bytes "Internal Server Error") CTYPE_JSON MSG_PARSE, .close] :=
  to_double_accepts.2.2.2.2 false GET_REQUEST
    ⟨true, 0, 200, [examplePage (bytes "N/A" :: OTHER_VALUES) []]⟩ (bytes "Voltage")
    (by decide) (by decide) (by decide) (by decide) (by decide)

set_option maxRecDepth 1000000 in
/-- C7 as stated fails: the trimmed field `inf` holds no digit, yet
`to_double` accepts it, and the request is answered with status 200. -/
theorem to_double_accepts_inf :
    hasNumericPrefix (bytes "inf") = false ∧
    (∀ charSigned, trim charSigned (bytes "inf") = bytes "inf") ∧
    to_double (bytes "inf") = some (.inf false) ∧
    (handle_client false (some GET_REQUEST)
        ⟨true, 0, 200, [examplePage (bytes "inf" :: OTHER_VALUES) []]⟩).map
      (fun e => match e with
        | .send_http code _ _ _ => code
        | _ => 0) = [0, 0, 200, 0] := by
  decide

/-! ## Rendering with three decimals -/

theorem natDigitsAux_spec (fuel n : Nat) (acc : List Nat) :
    ∃ ds, natDigitsAux (fuel + 1) n acc = ds ++ acc ∧ ds ≠ [] ∧ ∀ d ∈ ds, isdigit d = true := by
  induction fuel generalizing n acc with
  | zero =>
    unfold natDigitsAux
    by_cases h : n < 10
    · refine ⟨[48 + n], by simp [h], by simp, ?_⟩
      intro d hd
      simp only [List.mem_singleton] at hd
      subst hd
      simp [isdigit]; omega
    · refine ⟨[48 + n % 10], by simp [h, natDigitsAux], by simp, ?_⟩
      intro d hd
      simp only [List.mem_singleton] at hd
      subst hd
      simp [isdigit]; omega
  | succ k ih =>
    unfold natDigitsAux
    by_cases h : n < 10
    · refine ⟨[48 + n], by simp [h], by simp, ?_⟩
      intro d hd
      simp only [List.mem_singleton] at hd
      subst hd
      simp [isdigit]; omega
    · obtain ⟨ds, h1, h2, h3⟩ := ih (n / 10) ((48 + n % 10) :: acc)
      refine ⟨ds ++ [48 + n % 10], by simp [h, h1], by simp, ?_⟩
      intro d hd
      rw [List.mem_append] at hd
      rcases hd with hd | hd
      · exact h3 d hd
      · simp only [List.mem_singleton] at hd
        subst hd
        simp [isdigit]; omega

theorem natDigits_spec (n : Nat) :
    natDigits n ≠ [] ∧ ∀ d ∈ natDigits n, isdigit d = true := by
  obtain ⟨ds, h1, h2, h3⟩ := natDigitsAux_spec n n []
  unfold natDigits
  rw [h1, List.append_nil]
  exact ⟨h2, h3⟩

theorem isFixed3_digits (ds : List Nat) (a b c : Nat) (hne : ds ≠ [])
    (hds : ∀ d ∈ ds, isdigit d = true) (ha : isdigit a = true) (hb : isdigit b = true)
    (hc : isdigit c = true) (neg : Bool) :
    isFixed3 (signBytes neg ++ ds ++ [46, a, b, c]) = true := by
  have htw : (ds ++ [46, a, b, c]).takeWhile isdigit = ds := by
    rw [List.takeWhile_append_of_pos hds]
    simp [List.takeWhile_cons, isdigit]
  have hlen : ds.length ≠ 0 := fun h0 => hne (List.length_eq_zero.mp h0)
  have key : ∀ u, u = ds ++ [46, a, b, c] →
      (decide ((u.takeWhile isdigit).length ≠ 0) && match u.drop (u.takeWhile isdigit).length with
        | [46, a, b, c] => isdigit a && isdigit b && isdigit c
        | _ => false) = true := by
    intro u hu
    subst hu
    rw [htw, List.drop_left]
    simp [hlen, ha, hb, hc]
  cases neg with
  | true =>
    show isFixed3 (45 :: (ds ++ [46, a, b, c])) = true
    exact key _ rfl
  | false =>
    show isFixed3 (ds ++ [46, a, b, c]) = true
    cases ds with
    | nil => exact absurd rfl hne
    | cons d r =>
      have hd : isdigit d = true := hds d (by simp)
      have hd45 : d ≠ 45 := by
        intro h; subst h; exact absurd hd (by decide)
      unfold isFixed3
      have : (match (d :: r ++ [46, a, b, c]) with
          | 45 :: t => t
          | _ => d :: r ++ [46, a, b, c]) = d :: r ++ [46, a, b, c] := by
        split
        · rename_i t heq
          simp only [List.cons_append, List.cons.injEq] at heq
          exact absurd heq.1 hd45
        · rfl
      simp only [this]
      exact key _ rfl

theorem isdigit_add (x : Nat) (h : x < 10) : isdigit (48 + x) = true := by
  simp [isdigit]; omega

theorem isFixed3_fmt3_finite (neg : Bool) (m : Nat) (e : Int) :
    isFixed3 (fmt3 (.finite neg m e)) = true := by
  unfold fmt3
  simp only []
  obtain ⟨h1, h2⟩ := natDigits_spec
    ((if 0 ≤ e then m * 2 ^ e.toNat * 1000 else roundHalfEven (m * 1000) (2 ^ (-e).toNat)) / 1000)
  exact isFixed3_digits _ _ _ _ h1 h2 (isdigit_add _ (by omega)) (isdigit_add _ (by omega))
    (isdigit_add _ (by omega)) neg

theorem handle_client_cases (cs : Bool) (rx : Option (List Nat)) (net : CurlRun) :
    handle_client cs rx net = [.close] ∨
    handle_client cs rx net =
      [.send_http 405 (bytes "Method Not Allowed") CTYPE_JSON MSG_METHOD, .close] ∨
    handle_client cs rx net =
      [.fetch, .send_http 502 (bytes "Bad Gateway") CTYPE_JSON MSG_GATEWAY, .close] ∨
    ∃ hay, handle_client cs rx net = .fetch :: .extract :: respond cs hay := by
  cases rx with
  | none => exact Or.inl rfl
  | some avail =>
    rw [handle_client_some]
    split_ifs
    · exact Or.inl rfl
    · exact Or.inr (Or.inl rfl)
    · exact Or.inr (Or.inr (Or.inl rfl))
    · exact Or.inr (Or.inr (Or.inr ⟨_, rfl⟩))

theorem respond_eq_fields (cs : Bool) (hay : List Nat) :
    respond cs hay =
      if fieldsParse cs hay = true then
        if 1024 ≤ (compose (fieldValues cs hay) (stateValue cs hay)).length then SERIAL_FAILURE
        else [.send_http 200 (bytes "OK") CTYPE_JSON
          (compose (fieldValues cs hay) (stateValue cs hay)), .close]
      else PARSE_FAILURE := by
  rw [respond_eq]
  have hany : ∀ l : List (Option CDouble),
      l.any (fun v => v.isNone) = !l.all (fun v => v.isSome) := by
    intro l
    induction l with
    | nil => rfl
    | cons a as ih => cases a <;> simp [ih]
  by_cases h : fieldsParse cs hay = true
  · rw [if_pos h, if_neg]
    · rfl
    · unfold fieldsParse fieldNumbers parsedFields at h
      rw [Bool.and_eq_true] at h
      rw [hany, h.1, h.2]
      decide
  · rw [if_neg h, if_pos]
    unfold fieldsParse fieldNumbers parsedFields at h
    rw [hany]
    revert h
    cases (LABELS.map (fun label => parse_value_after hay label [] 64)).all (fun r => r.1) <;>
      cases ((LABELS.map (fun label => parse_value_after hay label [] 64)).map
        (fun r => to_double (trim cs r.2))).all (fun v => v.isSome) <;> simp

theorem fieldValues_length (cs : Bool) (hay : List Nat) : (fieldValues cs hay).length = 9 := by
  simp [fieldValues, fieldNumbers, parsedFields, LABELS]

theorem fieldValues_accepted (cs : Bool) (hay : List Nat) (h : fieldsParse cs hay = true)
    (v : CDouble) (hv : v ∈ fieldValues cs hay) :
    ∃ label ∈ LABELS,
      to_double (trim cs (parse_value_after hay label [] 64).2) = some v := by
  unfold fieldsParse at h
  rw [Bool.and_eq_true, List.all_eq_true, List.all_eq_true] at h
  unfold fieldValues at hv
  rw [List.mem_map] at hv
  obtain ⟨o, ho, hov⟩ := hv
  have hsome := h.2 o ho
  unfold fieldNumbers parsedFields at ho
  rw [List.map_map, List.mem_map] at ho
  obtain ⟨label, hl, hlo⟩ := ho
  refine ⟨label, hl, ?_⟩
  simp only [Function.comp] at hlo
  rw [hlo]
  cases o with
  | none => exact absurd hsome (by simp)
  | some w => simp only [Option.getD_some] at hov; rw [hov]

theorem respond_200 (cs : Bool) (hay status ctype body : List Nat)
    (h : Event.send_http 200 status ctype body ∈ respond cs hay) :
    fieldsParse cs hay = true ∧ body = compose (fieldValues cs hay) (stateValue cs hay) := by
  rw [respond_eq_fields] at h
  by_cases h1 : fieldsParse cs hay = true
  · rw [if_pos h1] at h
    refine ⟨h1, ?_⟩
    by_cases h2 : 1024 ≤ (compose (fieldValues cs hay) (stateValue cs hay)).length
    · rw [if_pos h2] at h
      simp [SERIAL_FAILURE] at h
    · rw [if_neg h2] at h
      simp only [List.mem_cons, Event.send_http.injEq, true_and, List.mem_singleton,
        reduceCtorEq, or_false, List.mem_nil_iff] at h
      exact h.2.2
  · rw [if_neg h1] at h
    simp [PARSE_FAILURE] at h

/-! ## The text of a 200 body -/

set_option maxRecDepth 100000 in
theorem compose_nine (v1 v2 v3 v4 v5 v6 v7 v8 v9 : CDouble) (state : List Nat) :
    compose [v1, v2, v3, v4, v5, v6, v7, v8, v9] state =
      bytes "\x7b\"name\":\"Tasmota Tiny-Monitor\",\"voltage\":" ++ fmt3 v1 ++
      bytes ",\"current\":" ++ fmt3 v2 ++
      bytes ",\"active_power\":" ++ fmt3 v3 ++
      bytes ",\"apparent_power\":" ++ fmt3 v4 ++
      bytes ",\"reactive_power\":" ++ fmt3 v5 ++
      bytes ",\"power_factor\":" ++ fmt3 v6 ++
      bytes ",\"energy_today_kwh\":" ++ fmt3 v7 ++
      bytes ",\"energy_yesterday_kwh\":" ++ fmt3 v8 ++
      bytes ",\"energy_total_kwh\":" ++ fmt3 v9 ++
      bytes ",\"state\":\"" ++ state ++
      bytes "\",\"source\":\"http://192.168.1.124/?m=1\"\x7d" := by
  simp only [compose, JSON_KEYS, List.zip_cons_cons, List.zip_nil_right, List.map_cons,
    List.map_nil, List.flatten_cons, List.flatten_nil, List.append_assoc, List.append_nil]
  rfl

theorem handle_client_200 (cs : Bool) (rx : Option (List Nat)) (net : CurlRun)
    (status ctype body : List Nat)
    (h : Event.send_http 200 status ctype body ∈ handle_client cs rx net) :
    Event.send_http 200 status ctype body ∈ respond cs (cstr net.chunks.flatten) := by
  cases rx with
  | none => exact absurd h (by simp [handle_client])
  | some avail =>
    by_cases hget : (avail.take 2047).take 4 = bytes "GET "
    · rw [handle_client_get cs avail net hget] at h
      by_cases hc : fetchOk net ∧ net.chunks.flatten ≠ []
      · rw [if_pos hc] at h
        simpa using h
      · rw [if_neg hc] at h
        simp at h
    · by_cases hrecv : avail.take 2047 = []
      · rw [handle_client_some, if_pos (by rw [hrecv]; rfl)] at h
        simp at h
      · rw [handle_client_not_get cs avail net hrecv hget] at h
        simp at h

theorem fieldValue_of_fieldsParse (cs : Bool) (hay label : List Nat)
    (h : fieldsParse cs hay = true) (hl : label ∈ LABELS) :
    ∃ v, fieldValue cs hay label = some v := by
  unfold fieldsParse at h
  rw [Bool.and_eq_true, List.all_eq_true, List.all_eq_true] at h
  have hmem : fieldValue cs hay label ∈ fieldNumbers cs hay := by
    unfold fieldNumbers parsedFields fieldValue
    rw [List.mem_map]
    exact ⟨_, List.mem_map.mpr ⟨label, hl, rfl⟩, rfl⟩
  have := h.2 _ hmem
  cases hv : fieldValue cs hay label with
  | none => rw [hv] at this; exact absurd this (by simp)
  | some v => exact ⟨v, rfl⟩

theorem fieldValues_eq (cs : Bool) (hay : List Nat) :
    fieldValues cs hay =
      [(fieldValue cs hay (bytes "Voltage")).getD (.finite false 0 0),
       (fieldValue cs hay (bytes "Current")).getD (.finite false 0 0),
       (fieldValue cs hay (bytes "Active Power")).getD (.finite false 0 0),
       (fieldValue cs hay (bytes "Apparent Power")).getD (.finite false 0 0),
       (fieldValue cs hay (bytes "Reactive Power")).getD (.finite false 0 0),
       (fieldValue cs hay (bytes "Power Factor")).getD (.finite false 0 0),
       (fieldValue cs hay (bytes "Energy Today")).getD (.finite false 0 0),
       (fieldValue cs hay (bytes "Energy Yesterday")).getD (.finite false 0 0),
       (fieldValue cs hay (bytes "Energy Total")).getD (.finite false 0 0)] := rfl

theorem strstr_append (pre rest needle : List Nat)
    (hfirst : ∀ j < pre.length, ¬ needle <+: (pre ++ rest).drop j)
    (hhere : needle <+: rest) : strstr (pre ++ rest) needle = some pre.length := by
  induction pre with
  | nil =>
    have h := (startsWith_iff rest needle).mpr hhere
    cases rest with
    | nil => simp [strstr, h]
    | cons a as => simp [strstr, h]
  | cons a p ih =>
    have h0 : startsWith (a :: (p ++ rest)) needle = false := by
      rw [← Bool.not_eq_true, startsWith_iff]
      exact hfirst 0 (by simp)
    have ih2 := ih (fun j hj => by
      have := hfirst (j + 1) (by simp; omega)
      simpa using this)
    show strstr (a :: (p ++ rest)) needle = some (p.length + 1)
    unfold strstr
    rw [h0, ih2]
    rfl

theorem strchr_append (a b : List Nat) (c : Nat) (h : c ∉ a) :
    strchr (a ++ c :: b) c = some a.length := by
  induction a with
  | nil => simp [strchr]
  | cons x xs ih =>
    have hx : x ≠ c := fun h0 => h (by simp [h0])
    have hxs : c ∉ xs := fun h0 => h (by simp [h0])
    show strchr (x :: (xs ++ c :: b)) c = some (xs.length + 1)
    unfold strchr
    rw [if_neg hx, ih hxs]
    rfl

theorem clampLen_of_pos (n outsz : Nat) (h1 : 1 ≤ outsz) (h2 : outsz < 2 ^ 64) :
    clampLen n outsz = min n (outsz - 1) := by
  unfold clampLen SIZE_BITS
  split_ifs with h
  · rw [show outsz + 2 ^ 64 - 1 = (outsz - 1) + 2 ^ 64 by omega, Nat.add_mod_right,
      Nat.mod_eq_of_lt (by omega)]
    omega
  · omega

theorem parse_state_of_absent (hay out : List Nat) (n : Nat)
    (h : ¬ STATE_MARKER <:+: hay) : parse_state hay out n = (false, out) := by
  unfold parse_state
  rw [(strstr_eq_none_iff hay STATE_MARKER).mpr h]

theorem take_clampLen (run rest : List Nat) (outsz : Nat) (h1 : 1 ≤ outsz)
    (h2 : outsz < 2 ^ 64) :
    (run ++ rest).take (clampLen run.length outsz) = run.take (outsz - 1) := by
  rw [clampLen_of_pos _ _ h1 h2, List.take_append_eq_append_take]
  have h0 : min run.length (outsz - 1) - run.length = 0 := by omega
  rw [h0, List.take_zero, List.append_nil]
  by_cases h : run.length ≤ outsz - 1
  · rw [Nat.min_eq_left h, List.take_length, List.take_of_length_le h]
  · rw [Nat.min_eq_right (by omega)]

theorem parse_state_at (pre run post out : List Nat) (outsz : Nat)
    (hsz : 1 ≤ outsz) (hsz2 : outsz < 2 ^ 64)
    (hfirst : ∀ j < pre.length,
      ¬ STATE_MARKER <+: (pre ++ STATE_MARKER ++ run ++ LT :: post).drop j)
    (hrun : LT ∉ run) :
    parse_state (pre ++ STATE_MARKER ++ run ++ LT :: post) out outsz =
      if run = [] then (false, out) else (true, run.take (outsz - 1)) := by
  have h1 : strstr (pre ++ STATE_MARKER ++ run ++ LT :: post) STATE_MARKER = some pre.length := by
    rw [List.append_assoc, List.append_assoc]
    apply strstr_append
    · intro j hj
      have := hfirst j hj
      rwa [List.append_assoc, List.append_assoc] at this
    · exact List.prefix_append _ _
  have h2 : (pre ++ STATE_MARKER ++ run ++ LT :: post).drop (pre.length + STATE_MARKER.length)
      = run ++ LT :: post := by
    rw [List.append_assoc, ← List.length_append]
    exact List.drop_left _ _
  unfold parse_state
  rw [h1]
  simp only [h2, strchr_append run post LT hrun]
  by_cases hr : run = []
  · subst hr; rfl
  · have hlen : run.length ≠ 0 := fun h0 => hr (List.length_eq_zero.mp h0)
    rw [if_neg hlen, if_neg hr, take_clampLen run _ outsz hsz hsz2]

/-! ## The state field -/

theorem trim_nil (cs : Bool) : trim cs [] = [] := rfl

theorem stateValue_unknown (cs : Bool) (hay : List Nat)
    (h : (parse_state hay [] 32).1 = false ∨ trim cs (parse_state hay [] 32).2 = []) :
    stateValue cs hay = bytes "UNKNOWN" := by
  have hnil : trim cs (parse_state hay [] 32).2 = [] := by
    rcases h with h | h
    · have h2 : (parse_state hay [] 32).2 = [] := by
        revert h
        unfold parse_state
        split
        · intro _; rfl
        · dsimp only
          split
          · intro _; rfl
          · split
            · intro _; rfl
            · intro h; exact absurd h (by simp)
      rw [h2, trim_nil]
    · exact h
  unfold stateValue
  rw [hnil]
  rfl

theorem stateValue_text (cs : Bool) (hay : List Nat)
    (h : trim cs (parse_state hay [] 32).2 ≠ []) :
    stateValue cs hay = trim cs (parse_state hay [] 32).2 := by
  unfold stateValue
  rw [if_pos (fun h0 => h (List.length_eq_zero.mp h0))]

/-- C9, as the code has it. The state field never causes a parse failure:
for a `GET` request whose fetch succeeds with a body whose nine fields
extract and parse, the answer is 200 with the composed body when that body is
shorter than 1024 bytes and 500 with `MSG_SERIAL` otherwise, whether the
state marker occurs or not (the state text is part of the composed body).
The state value is `UNKNOWN` when `parse_state` fails (as it does when the
marker does not occur) or its trimmed output is empty; otherwise it is the
trimmed output, which is the text between the first occurrence of the marker
and the next `<`, cut to 31 bytes and then trimmed. -/
theorem state_is_optional :
    (∀ (charSigned : Bool) (avail : List Nat) (net : CurlRun),
      (avail.take 2047).take 4 = bytes "GET " → fetchOk net → net.chunks.flatten ≠ [] →
      fieldsParse charSigned (cstr net.chunks.flatten) = true →
      handle_client charSigned (some avail) net =
        .fetch :: .extract ::
          (if 1024 ≤ (compose (fieldValues charSigned (cstr net.chunks.flatten))
              (stateValue charSigned (cstr net.chunks.flatten))).length then SERIAL_FAILURE
           else [.send_http 200 (bytes "OK") CTYPE_JSON
              (compose (fieldValues charSigned (cstr net.chunks.flatten))
                (stateValue charSigned (cstr net.chunks.flatten))), .close])) ∧
    (∀ (charSigned : Bool) (hay : List Nat),
      (parse_state hay [] 32).1 = false ∨ trim charSigned (parse_state hay [] 32).2 = [] →
      stateValue charSigned hay = bytes "UNKNOWN") ∧
    (∀ (charSigned : Bool) (hay : List Nat),
      (parse_state hay [] 32).1 = true → trim charSigned (parse_state hay [] 32).2 ≠ [] →
      stateValue charSigned hay = trim charSigned (parse_state hay [] 32).2) ∧
    (∀ hay : List Nat, ¬ STATE_MARKER <:+: hay → (parse_state hay [] 32).1 = false) ∧
    (∀ pre run post : List Nat,
      (∀ j < pre.length, ¬ STATE_MARKER <+: (pre ++ STATE_MARKER ++ run ++ LT :: post).drop j) →
      LT ∉ run → run ≠ [] →
      parse_state (pre ++ STATE_MARKER ++ run ++ LT :: post) [] 32 = (true, run.take 31)) := by
  refine ⟨?_, stateValue_unknown, fun cs hay _ h => stateValue_text cs hay h, ?_, ?_⟩
  · intro cs avail net hget hok hbody hparse
    rw [handle_client_get cs avail net hget, if_pos ⟨hok, hbody⟩, respond_eq_fields,
      if_pos hparse]
  · intro hay h
    rw [parse_state_of_absent hay [] 32 h]
  · intro pre run post hfirst hrun hne
    rw [parse_state_at pre run post [] 32 (by decide) (by decide) hfirst hrun, if_neg hne]

set_option maxRecDepth 1000000 in
/-- C9 as amended, at the example page with the label `ON`. -/
theorem state_is_optional_witness :
    handle_client false (some GET_REQUEST)
        ⟨true, 0, 200, [examplePage (bytes "233.4" :: OTHER_VALUES) STATE_ON]⟩ =
      [.fetch, .extract, .send_http 200 (bytes "OK") CTYPE_JSON (bytes
        ("\x7b\"name\":\"Tasmota Tiny-Monitor\",\"voltage\":233.400,\"current\":0.170," ++
        "\"active_power\":39.000,\"apparent_power\":41.000,\"reactive_power\":12.000," ++
        "\"power_factor\":0.950,\"energy_today_kwh\":0.123,\"energy_yesterday_kwh\":1.500," ++
        "\"energy_total_kwh\":1234.567,\"state\":\"ON\"," ++
        "\"source\":\"http://192.168.1.124/?m=1\"\x7d")), .close] :=
  (state_is_optional.1 false GET_REQUEST
    ⟨true, 0, 200, [examplePage (bytes "233.4" :: OTHER_VALUES) STATE_ON]⟩
    (by decide) (by decide) (by decide) (by decide)).trans (by decide)

set_option maxRecDepth 1000000 in
/-- C9 as stated fails: with the same nine fields, which extract and parse,
the page without the state marker is answered with 500 (the composed body
with `UNKNOWN` has 1025 bytes) and the page with the label `ON` is answered
with 200. Besides, a state text that itself reads `UNKNOWN` gives the value
`UNKNOWN` although `parse_state` succeeds with a non-empty output. -/
theorem state_marker_changes_status :
    fieldsParse false (cstr (examplePage LONG_VALUES [])) = true ∧
    fieldsParse false (cstr (examplePage LONG_VALUES STATE_ON)) = true ∧
    fieldValues false (cstr (examplePage LONG_VALUES [])) =
      fieldValues false (cstr (examplePage LONG_VALUES STATE_ON)) ∧
    statusCodes (handle_client false (some GET_REQUEST)
      ⟨true, 0, 200, [examplePage LONG_VALUES []]⟩) = [500] ∧
    statusCodes (handle_client false (some GET_REQUEST)
      ⟨true, 0, 200, [examplePage LONG_VALUES STATE_ON]⟩) = [200] ∧
    parse_state (STATE_MARKER ++ bytes "UNKNOWN<") [] 32 = (true, bytes "UNKNOWN") ∧
    stateValue false (STATE_MARKER ++ bytes "UNKNOWN<") = bytes "UNKNOWN" := by
  decide!

/-! ## Occurrences in a page made of rows -/

theorem isPrefix_within_segment (init rest needle : List Nat) (c : Nat) (hc : c ∉ needle)
    (j : Nat) (hj : j < (init ++ [c]).length)
    (h : needle <+: (init ++ [c] ++ rest).drop j) : needle <+: (init ++ [c]).drop j := by
  have hj2 : j ≤ init.length := by
    rw [List.length_append, List.length_singleton] at hj; omega
  rw [List.drop_append_of_le_length (Nat.le_of_lt hj)] at h
  rcases List.prefix_or_prefix_of_prefix h (List.prefix_append _ rest) with h1 | h1
  · exact h1
  · exfalso
    apply hc
    apply h1.subset
    rw [List.drop_append_of_le_length hj2]
    simp

theorem no_occurrence_in_segments (needle : List Nat) (c : Nat) (hc : c ∉ needle)
    (segs : List (List Nat)) (rest : List Nat)
    (hsegs : ∀ s ∈ segs, (∃ init, s = init ++ [c]) ∧ ∀ j < s.length, ¬ needle <+: s.drop j) :
    ∀ j < segs.flatten.length, ¬ needle <+: (segs.flatten ++ rest).drop j := by
  induction segs with
  | nil => intro j hj; simp at hj
  | cons s ss ih =>
    intro j hj h
    obtain ⟨⟨init, hinit⟩, hs⟩ := hsegs s (by simp)
    rw [List.flatten_cons, List.append_assoc] at h
    by_cases hjs : j < s.length
    · subst hinit
      exact hs j hjs (isPrefix_within_segment init _ needle c hc j hjs h)
    · rw [List.drop_append_eq_append_drop, List.drop_of_length_le (by omega),
        List.nil_append] at h
      refine ih (fun t ht => hsegs t (by simp [ht])) (j - s.length) ?_ h
      rw [List.flatten_cons, List.length_append] at hj
      omega

theorem Row.text_eq (r : Row) :
    r.text = (r.label ++ r.filler ++ MARKER ++ r.run) ++ [LT] := rfl

theorem labels_no_LT : ∀ l ∈ LABELS, LT ∉ l := by decide

theorem marker_no_LT : LT ∉ MARKER := by decide

theorem labels_nodup : LABELS.Nodup := by decide

/-- In a page of well-formed rows with distinct labels, the first occurrence
of a row's label is the start of that row. -/
theorem strstr_label (before after : List Row) (r : Row)
    (hwf : ∀ x ∈ before ++ r :: after, x.wf)
    (hnd : ((before ++ r :: after).map Row.label).Nodup) :
    strstr (pageOf (before ++ r :: after)) r.label = some (pageOf before).length := by
  have hpage : pageOf (before ++ r :: after) = pageOf before ++ (r.text ++ pageOf after) := by
    simp [pageOf]
  rw [hpage]
  have hrl : r.label ∈ LABELS := (hwf r (by simp)).1
  apply strstr_append
  · apply no_occurrence_in_segments r.label LT (labels_no_LT _ hrl)
    intro s hs
    rw [List.mem_map] at hs
    obtain ⟨x, hx, hxs⟩ := hs
    subst hxs
    refine ⟨⟨_, x.text_eq⟩, ?_⟩
    intro j hj hpre
    have hxwf := hwf x (by simp [hx])
    have := (hxwf.2.2.2.2.1 r.label hrl j hj hpre).2
    rw [List.map_append, List.map_cons, List.nodup_append] at hnd
    exact hnd.2.2 (List.mem_map.mpr ⟨x, hx, this.symm⟩) (by simp)
  · rw [Row.text, List.append_assoc, List.append_assoc, List.append_assoc, List.append_assoc]
    exact List.prefix_append _ _

/-- From the start of a well-formed row the first marker is the row's own. -/
theorem strstr_marker (r : Row) (rest : List Nat) (hwf : r.wf) :
    strstr (r.text ++ rest) MARKER = some (r.label.length + r.filler.length) := by
  have h1 : r.text ++ rest = (r.label ++ r.filler) ++ (MARKER ++ (r.run ++ [LT] ++ rest)) := by
    simp [Row.text]
  have h2 := strstr_append (r.label ++ r.filler) (MARKER ++ (r.run ++ [LT] ++ rest)) MARKER
  rw [List.length_append] at h2
  rw [h1]
  apply h2
  · intro j hj hpre
    rw [← h1, Row.text_eq] at hpre
    have hjt : j < r.text.length := by
      simp only [Row.text, List.length_append] at hj ⊢; omega
    have h3 := isPrefix_within_segment _ rest MARKER LT marker_no_LT j
      (by rw [← Row.text_eq]; exact hjt) hpre
    rw [← Row.text_eq] at h3
    have := hwf.2.2.2.2.2 j hjt h3
    omega
  · exact List.prefix_append _ _
/-! ## The value run of a well-formed row -/

theorem DecLit.text_bytes (d : DecLit) (hwf : d.wf) :
    ∀ b ∈ d.text, isdigit b = true ∨ b = 43 ∨ b = 45 ∨ b = 46 := by
  intro b hb
  unfold DecLit.text at hb
  rw [List.mem_append, List.mem_append] at hb
  rcases hb with (hb | hb) | hb
  · rcases hs : d.sign with _ | s
    · rw [hs] at hb; simp at hb
    · cases s <;> rw [hs] at hb <;> simp at hb <;> simp [hb]
  · exact Or.inl (hwf.1 b hb)
  · by_cases hd : d.dot = true
    · rw [if_pos hd, List.mem_cons] at hb
      rcases hb with hb | hb
      · exact Or.inr (Or.inr (Or.inr hb))
      · exact Or.inl (hwf.2.1 b hb)
    · rw [if_neg hd] at hb; simp at hb

theorem litByte_facts (cs : Bool) (b : Nat)
    (h : isdigit b = true ∨ b = 43 ∨ b = 45 ∨ b = 46) :
    b ≠ 0 ∧ b ≠ LT ∧ b ≠ 32 ∧ isLeftTrim cs b = false ∧ isRightTrim cs b = false ∧
      isspace b = false := by
  have hb : 43 ≤ b ∧ b ≤ 57 := by
    rcases h with h | h | h | h
    · simp [isdigit] at h; omega
    · omega
    · omega
    · omega
  have hcv : charVal cs b = (b : Int) := by
    unfold charVal
    have : decide (128 ≤ b) = false := by simp; omega
    rw [this, Bool.and_false]
    rfl
  refine ⟨by omega, by unfold LT; omega, by omega, ?_, ?_, ?_⟩
  · unfold isLeftTrim
    rw [hcv]
    simp only [Bool.or_eq_false_iff, beq_eq_false_iff_ne, ne_eq]
    omega
  · unfold isRightTrim
    rw [hcv]
    simp only [Bool.or_eq_false_iff, beq_eq_false_iff_ne, ne_eq]
    omega
  · unfold isspace
    simp only [Bool.or_eq_false_iff, beq_eq_false_iff_ne, ne_eq, Bool.and_eq_false_imp,
      decide_eq_true_eq, decide_eq_false_iff_not]
    omega

theorem DecLit.text_ne_nil (d : DecLit) (hwf : d.wf) : d.text ≠ [] := by
  intro h
  have hlen : d.text.length = 0 := by rw [h]; rfl
  unfold DecLit.text at hlen
  simp only [List.length_append] at hlen
  have h4 := hwf.2.2.2
  by_cases hd : d.dot = true
  · rw [if_pos hd] at hlen; simp at hlen
  · have := hwf.2.2.1 (by simpa using hd)
    rw [this] at h4
    simp only [List.length_nil, Nat.add_zero] at h4
    omega

theorem Row.LT_not_mem_run (r : Row) (hwf : r.lit.wf) : LT ∉ r.run := by
  intro h
  unfold Row.run at h
  rw [List.mem_append, List.mem_append] at h
  rcases h with (h | h) | h
  · exact absurd (List.eq_of_mem_replicate h) (by decide)
  · exact (litByte_facts false _ (r.lit.text_bytes hwf _ h)).2.1 rfl
  · exact absurd (List.eq_of_mem_replicate h) (by decide)

theorem Row.run_ne_nil (r : Row) (hwf : r.lit.wf) : r.run ≠ [] := by
  intro h
  unfold Row.run at h
  rw [List.append_eq_nil, List.append_eq_nil] at h
  exact r.lit.text_ne_nil hwf h.1.2

/-- On a page of well-formed rows with distinct labels, `parse_value_after`
copies the whole value run of the label's row. -/
theorem parse_value_after_row (before after : List Row) (r : Row) (out : List Nat)
    (hwf : ∀ x ∈ before ++ r :: after, x.wf)
    (hnd : ((before ++ r :: after).map Row.label).Nodup) :
    parse_value_after (pageOf (before ++ r :: after)) r.label out 64 = (true, r.run) := by
  have hr : r.wf := hwf r (by simp)
  have hpage : pageOf (before ++ r :: after) = pageOf before ++ (r.text ++ pageOf after) := by
    simp [pageOf]
  have h1 := strstr_label before after r hwf hnd
  have h2 : (pageOf (before ++ r :: after)).drop (pageOf before).length
      = r.text ++ pageOf after := by
    rw [hpage]; exact List.drop_left _ _
  have h3 := strstr_marker r (pageOf after) hr
  have h4 : (pageOf (before ++ r :: after)).drop
      ((pageOf before).length + (r.label.length + r.filler.length) + MARKER.length)
      = r.run ++ LT :: pageOf after := by
    rw [Nat.add_assoc, ← List.drop_drop, h2]
    have : r.text ++ pageOf after
        = (r.label ++ r.filler ++ MARKER) ++ (r.run ++ LT :: pageOf after) := by
      simp [Row.text]
    rw [this, ← List.length_append, ← List.length_append]
    exact List.drop_left _ _
  unfold parse_value_after
  rw [h1]
  simp only [h2, h3, h4, strchr_append r.run _ LT (r.LT_not_mem_run hr.2.2.1)]
  have hlen : r.run.length ≠ 0 := fun h0 => r.run_ne_nil hr.2.2.1 (List.length_eq_zero.mp h0)
  rw [if_neg hlen, take_clampLen r.run _ 64 (by decide) (by decide)]
  have h63 := hr.2.2.2.1
  rw [List.take_of_length_le (by omega)]
/-! ## Trimming the run and reading the literal -/

theorem dropWhile_replicate_append (p : Nat → Bool) (a n : Nat) (l : List Nat)
    (ha : p a = true) : (List.replicate n a ++ l).dropWhile p = l.dropWhile p := by
  induction n with
  | zero => rfl
  | succ k ih => rw [List.replicate_succ, List.cons_append, List.dropWhile_cons, if_pos ha, ih]

theorem rdropWhile_append_replicate (p : Nat → Bool) (a n : Nat) (l : List Nat)
    (ha : p a = true) : (l ++ List.replicate n a).rdropWhile p = l.rdropWhile p := by
  induction n with
  | zero => simp
  | succ k ih =>
    rw [List.replicate_succ', ← List.append_assoc, List.rdropWhile_concat_pos _ _ _ ha, ih]

theorem rdropWhile_of_last (p : Nat → Bool) (l : List Nat) (x : Nat)
    (hx : p x = false) : (l ++ [x]).rdropWhile p = l ++ [x] :=
  List.rdropWhile_concat_neg _ _ _ (by simp [hx])

theorem isLeftTrim_space (cs : Bool) : isLeftTrim cs 32 = true := by cases cs <;> decide

theorem isRightTrim_space (cs : Bool) : isRightTrim cs 32 = true := by cases cs <;> decide

/-- Trimming the value run of a row leaves the literal. -/
theorem trim_run (cs : Bool) (r : Row) (hwf : r.lit.wf) : trim cs r.run = r.lit.text := by
  have hb := r.lit.text_bytes hwf
  have hne := r.lit.text_ne_nil hwf
  unfold trim Row.run
  rw [List.append_assoc, dropWhile_replicate_append _ _ _ _ (isLeftTrim_space cs)]
  have h1 : (r.lit.text ++ List.replicate r.padR 32).dropWhile (isLeftTrim cs)
      = r.lit.text ++ List.replicate r.padR 32 := by
    cases ht : r.lit.text with
    | nil => exact absurd ht hne
    | cons x xs =>
      have := (litByte_facts cs x (hb x (by rw [ht]; simp))).2.2.2.1
      rw [List.cons_append, List.dropWhile_cons, if_neg (by simp [this])]
  rw [h1, cstr_of_zero_not_mem]
  · rw [rdropWhile_append_replicate _ _ _ _ (isRightTrim_space cs)]
    rcases List.eq_nil_or_concat r.lit.text with h | ⟨init, x, h⟩
    · exact absurd h hne
    · rw [List.concat_eq_append] at h
      rw [h]
      apply rdropWhile_of_last
      exact (litByte_facts cs x (hb x (by rw [h]; simp))).2.2.2.2.1
  · intro h0
    rw [List.mem_append] at h0
    rcases h0 with h0 | h0
    · exact (litByte_facts cs 0 (hb 0 h0)).1 rfl
    · exact absurd (List.eq_of_mem_replicate h0) (by decide)

theorem startsWithCI_false (s w : List Nat) (x : Nat) (hx : x ∈ w)
    (h : ∀ b ∈ s, tolower b ≠ x) : startsWithCI s w = false := by
  rw [← Bool.not_eq_true]
  intro hs
  unfold startsWithCI at hs
  rw [startsWith_iff] at hs
  have := hs.subset hx
  rw [List.mem_map] at this
  obtain ⟨b, hb, hbx⟩ := this
  exact h b hb hbx

theorem scaleToDouble_decimal (neg : Bool) (mant n : Nat) :
    scaleToDouble neg mant 10 (0 - (n : Int)) = roundToDouble neg mant (10 ^ n) := by
  unfold scaleToDouble
  cases n with
  | zero => simp
  | succ k =>
    have h1 : ¬ (0 : Int) ≤ 0 - ((k + 1 : Nat) : Int) := by omega
    have h2 : (-(0 - ((k + 1 : Nat) : Int))).toNat = k + 1 := by omega
    rw [if_neg h1, h2]

/-- The mantissa parser takes the digits and the point of a well-formed
literal whole. -/
theorem parseMantissa_literal (d : DecLit) (hwf : d.wf) :
    parseMantissa isdigit (d.ip ++ (if d.dot then 46 :: d.fp else []))
      = some (d.ip, d.fp, (d.ip ++ (if d.dot then 46 :: d.fp else [])).length) := by
  obtain ⟨hip, hfp, hdot, hlen⟩ := hwf
  have htw : (d.ip ++ (if d.dot then 46 :: d.fp else [])).takeWhile isdigit = d.ip := by
    rw [List.takeWhile_append_of_pos hip]
    by_cases hd : d.dot = true
    · rw [if_pos hd]; simp [List.takeWhile_cons, isdigit]
    · rw [if_neg hd]; simp
  unfold parseMantissa
  simp only [htw, List.drop_left]
  by_cases hd : d.dot = true
  · simp only [hd, if_true]
    have hfp2 : d.fp.takeWhile isdigit = d.fp := by
      rw [List.takeWhile_eq_self_iff]; exact hfp
    rw [hfp2, if_neg (by omega)]
    simp only [List.length_append, List.length_cons, Option.some.injEq, Prod.mk.injEq,
      true_and]
    omega
  · have hfp0 := hdot (by simpa using hd)
    simp only [hd, Bool.false_eq_true, if_false]
    rw [hfp0] at hlen ⊢
    simp only [List.length_nil, Nat.add_zero] at hlen
    rw [if_neg (by omega)]
    simp

theorem parseSubject_literal (neg : Bool) (d : DecLit) (hwf : d.wf) :
    parseSubject neg (d.ip ++ (if d.dot then 46 :: d.fp else []))
      = some (roundToDouble neg (digitsVal 10 (d.ip ++ d.fp)) (10 ^ d.fp.length),
          (d.ip ++ (if d.dot then 46 :: d.fp else [])).length) := by
  have hbytes : ∀ b ∈ d.ip ++ (if d.dot then 46 :: d.fp else []),
      tolower b ≠ 105 ∧ tolower b ≠ 110 ∧ tolower b ≠ 120 := by
    intro b hb
    have hb2 : 46 ≤ b ∧ b ≤ 57 := by
      rw [List.mem_append] at hb
      rcases hb with hb | hb
      · have := hwf.1 b hb; simp [isdigit] at this; omega
      · by_cases hd : d.dot = true
        · rw [if_pos hd, List.mem_cons] at hb
          rcases hb with hb | hb
          · omega
          · have := hwf.2.1 b hb; simp [isdigit] at this; omega
        · rw [if_neg hd] at hb; simp at hb
    have : tolower b = b := by
      unfold tolower
      rw [if_neg (by omega)]
    rw [this]
    omega
  have h1 := startsWithCI_false _ (bytes "infinity") 105 (by decide) (fun b hb => (hbytes b hb).1)
  have h2 := startsWithCI_false _ (bytes "inf") 105 (by decide) (fun b hb => (hbytes b hb).1)
  have h3 := startsWithCI_false _ (bytes "nan") 110 (by decide) (fun b hb => (hbytes b hb).2.1)
  have h4 := startsWithCI_false _ (bytes "0x") 120 (by decide) (fun b hb => (hbytes b hb).2.2)
  unfold parseSubject
  simp only [h1, h2, h3, h4, Bool.false_eq_true, if_false, parseMantissa_literal d hwf,
    List.drop_length, parseExponent, Nat.add_zero]
  rw [scaleToDouble_decimal]

/-- On a well-formed literal `to_double` reads it whole and returns its value. -/
theorem to_double_literal (d : DecLit) (hwf : d.wf) : to_double d.text = some d.value := by
  have hne := d.text_ne_nil hwf
  have hb := d.text_bytes hwf
  have hws : d.text.takeWhile isspace = [] := by
    cases ht : d.text with
    | nil => rfl
    | cons x xs =>
      have := (litByte_facts false x (hb x (by rw [ht]; simp))).2.2.2.2.2
      simp [List.takeWhile_cons, this]
  have hsign : d.text.drop (signLen d.text) = d.ip ++ (if d.dot then 46 :: d.fp else []) ∧
      isNeg d.text = (d.sign == some true) ∧
      signLen d.text + (d.ip ++ (if d.dot then 46 :: d.fp else [])).length ≠ 0 := by
    have hbody : ∀ t, t = d.ip ++ (if d.dot then 46 :: d.fp else []) →
        signLen t = 0 ∧ isNeg t = false ∧ t.length ≠ 0 := by
      intro t ht
      have hpm := parseMantissa_literal d hwf
      rw [← ht] at hpm
      cases t with
      | nil => exact absurd hpm (by simp [parseMantissa])
      | cons x xs =>
        have hx : x ∈ d.ip ++ (if d.dot then 46 :: d.fp else []) := by rw [← ht]; simp
        have hx2 : 46 ≤ x := by
          rw [List.mem_append] at hx
          rcases hx with hx | hx
          · have := hwf.1 x hx; simp [isdigit] at this; omega
          · by_cases hd : d.dot = true
            · rw [if_pos hd, List.mem_cons] at hx
              rcases hx with hx | hx
              · omega
              · have := hwf.2.1 x hx; simp [isdigit] at this; omega
            · rw [if_neg hd] at hx; simp at hx
        refine ⟨?_, ?_, by simp⟩
        · show (if x = 45 ∨ x = 43 then 1 else 0) = 0
          rw [if_neg (by omega)]
        · show (x == 45) = false
          simp; omega
    obtain ⟨hb1, hb2, hb3⟩ := hbody _ rfl
    unfold DecLit.text
    rcases hs : d.sign with _ | s
    · simp only [List.nil_append]
      rw [hb1]
      exact ⟨rfl, by rw [hb2]; rfl, by omega⟩
    · cases s
      · exact ⟨rfl, rfl, by simp [signLen]⟩
      · exact ⟨rfl, rfl, by simp [signLen]⟩
  unfold to_double strtod
  simp only [hws, List.length_nil, List.drop_zero, hsign.1, hsign.2.1,
    parseSubject_literal _ d hwf, Nat.zero_add]
  rw [if_neg hsign.2.2]
  rfl
/-! ## Round trip of a well-formed page -/

theorem Row.zero_not_mem_text (r : Row) (hwf : r.wf) : 0 ∉ r.text := by
  have hl : ∀ l ∈ LABELS, 0 ∉ l := by decide
  have hm : 0 ∉ MARKER := by decide
  intro h
  unfold Row.text Row.run at h
  simp only [List.mem_append, List.mem_singleton] at h
  rcases h with (((h | h) | h) | ((h | h) | h)) | h
  · exact hl _ hwf.1 h
  · exact hwf.2.1 h
  · exact hm h
  · exact absurd (List.eq_of_mem_replicate h) (by decide)
  · exact (litByte_facts false 0 (r.lit.text_bytes hwf.2.2.1 0 h)).1 rfl
  · exact absurd (List.eq_of_mem_replicate h) (by decide)
  · exact absurd h (by decide)

theorem zero_not_mem_pageOf (rows : List Row) (hwf : ∀ r ∈ rows, r.wf) : 0 ∉ pageOf rows := by
  intro h
  unfold pageOf at h
  rw [List.mem_flatten] at h
  obtain ⟨t, ht, h0⟩ := h
  rw [List.mem_map] at ht
  obtain ⟨r, hr, hrt⟩ := ht
  subst hrt
  exact r.zero_not_mem_text (hwf r hr) h0

theorem round_trip_row (cs : Bool) (rows : List Row)
    (hperm : (rows.map Row.label).Perm LABELS) (hwf : ∀ r ∈ rows, r.wf)
    (r : Row) (hr : r ∈ rows) :
    parse_value_after (pageOf rows) r.label [] 64 = (true, r.run) ∧
    trim cs (parse_value_after (pageOf rows) r.label [] 64).2 = r.lit.text ∧
    to_double (trim cs (parse_value_after (pageOf rows) r.label [] 64).2)
      = some r.lit.value := by
  have hnd : (rows.map Row.label).Nodup := hperm.nodup_iff.mpr labels_nodup
  obtain ⟨before, after, hsplit⟩ := List.append_of_mem hr
  subst hsplit
  have h1 := parse_value_after_row before after r [] hwf hnd
  have hlit := (hwf r hr).2.2.1
  rw [h1]
  exact ⟨rfl, trim_run cs r hlit, by
    show to_double (trim cs r.run) = some r.lit.value
    rw [trim_run cs r hlit]; exact to_double_literal r.lit hlit⟩

theorem digitsVal_append (base : Nat) (ds : List Nat) (d : Nat) :
    digitsVal base (ds ++ [d]) = digitsVal base ds * base + xdigitVal d := by
  simp [digitsVal, List.foldl_append]

theorem xdigitVal_digit (k : Nat) (h : k < 10) : xdigitVal (48 + k) = k := by
  unfold xdigitVal
  rw [if_pos (isdigit_add k h)]
  omega

theorem natDigitsAux_append (fuel n : Nat) (acc : List Nat) :
    natDigitsAux fuel n acc = natDigitsAux fuel n [] ++ acc := by
  induction fuel generalizing n acc with
  | zero => rfl
  | succ k ih =>
    unfold natDigitsAux
    by_cases h : n < 10
    · simp [h]
    · rw [if_neg h, if_neg h, ih (n / 10) ((48 + n % 10) :: acc), ih (n / 10) [48 + n % 10]]
      simp

/-- The digits printed for a number are its decimal digits: read back, they
give the number. -/
theorem digitsVal_natDigits (n : Nat) : digitsVal 10 (natDigits n) = n := by
  have key : ∀ fuel n, n < fuel → digitsVal 10 (natDigitsAux fuel n []) = n := by
    intro fuel
    induction fuel with
    | zero => intro n h; omega
    | succ k ih =>
      intro n hn
      unfold natDigitsAux
      by_cases h : n < 10
      · rw [if_pos h]
        have := digitsVal_append 10 [] (48 + n)
        rw [List.nil_append] at this
        rw [this, xdigitVal_digit n h]
        simp [digitsVal]
      · rw [if_neg h, natDigitsAux_append, digitsVal_append, ih (n / 10) (by omega),
          xdigitVal_digit _ (by omega)]
        omega
  exact key (n + 1) n (by omega)

/-- The halving count is the binary logarithm. -/
theorem log2Fuel_eq (n : Nat) : log2Fuel n n = Nat.log2 n := by
  have key : ∀ fuel n, n ≤ fuel → log2Fuel fuel n = Nat.log2 n := by
    intro fuel
    induction fuel with
    | zero =>
      intro n h
      have : n = 0 := by omega
      subst this
      simp [log2Fuel, Nat.log2]
    | succ k ih =>
      intro n hn
      unfold log2Fuel
      rw [Nat.log2]
      by_cases h : n < 2
      · rw [if_pos h, if_neg (by omega)]
      · rw [if_neg h, if_pos (by omega), ih (n / 2) (by omega)]
  exact key n n (Nat.le_refl n)

/-! ## What `strstr` and `strchr` return -/

theorem firstOcc_le_length (needle hay : List Nat) (i : Nat) (h : firstOcc needle hay i) :
    i ≤ hay.length := by
  by_contra hlt
  have hi : 0 < i := by omega
  have hnil : hay.drop i = [] := List.drop_of_length_le (by omega)
  have hn : needle = [] := by
    have := h.1
    rw [hnil] at this
    exact List.prefix_nil.mp this
  exact h.2 0 hi (by rw [hn]; exact List.nil_prefix)

theorem strstr_eq_some_iff (hay needle : List Nat) (i : Nat) :
    strstr hay needle = some i ↔ firstOcc needle hay i := by
  constructor
  · intro h
    induction hay generalizing i with
    | nil =>
      unfold strstr at h
      split_ifs at h with h0
      simp only [Option.some.injEq] at h
      subst h
      exact ⟨(startsWith_iff _ _).mp h0, fun j hj => absurd hj (by omega)⟩
    | cons a as ih =>
      unfold strstr at h
      split_ifs at h with h0
      · simp only [Option.some.injEq] at h
        subst h
        exact ⟨(startsWith_iff _ _).mp h0, fun j hj => absurd hj (by omega)⟩
      · rw [Option.map_eq_some'] at h
        obtain ⟨k, hk, hki⟩ := h
        subst hki
        obtain ⟨h1, h2⟩ := ih k hk
        refine ⟨by simpa using h1, ?_⟩
        intro j hj
        cases j with
        | zero =>
          intro hp
          exact h0 ((startsWith_iff _ _).mpr (by simpa using hp))
        | succ j' =>
          have := h2 j' (by omega)
          simpa using this
  · intro h
    have hle := firstOcc_le_length needle hay i h
    have h1 := strstr_append (hay.take i) (hay.drop i) needle
    rw [List.take_append_drop, List.length_take, Nat.min_eq_left hle] at h1
    exact h1 h.2 h.1

theorem firstOcc_of_not_absent (hay needle : List Nat) (h : needle <:+: hay) :
    ∃ i, firstOcc needle hay i := by
  cases hs : strstr hay needle with
  | none => exact absurd h ((strstr_eq_none_iff hay needle).mp hs)
  | some i => exact ⟨i, (strstr_eq_some_iff hay needle i).mp hs⟩

theorem strchr_eq_none_iff (s : List Nat) (c : Nat) : strchr s c = none ↔ c ∉ s := by
  induction s with
  | nil => simp [strchr]
  | cons x xs ih =>
    unfold strchr
    by_cases hx : x = c
    · simp [hx]
    · rw [if_neg hx, Option.map_eq_none', ih]
      simp [List.mem_cons, Ne.symm hx]

theorem strchr_eq_some (s : List Nat) (c e : Nat) (h : strchr s c = some e) :
    ∃ run rest, s = run ++ c :: rest ∧ c ∉ run ∧ run.length = e := by
  induction s generalizing e with
  | nil => simp [strchr] at h
  | cons x xs ih =>
    unfold strchr at h
    by_cases hx : x = c
    · rw [if_pos hx] at h
      simp only [Option.some.injEq] at h
      exact ⟨[], xs, by simp [hx], by simp, by simpa using h⟩
    · rw [if_neg hx, Option.map_eq_some'] at h
      obtain ⟨k, hk, hke⟩ := h
      obtain ⟨run, rest, h1, h2, h3⟩ := ih k hk
      refine ⟨x :: run, rest, by simp [h1], ?_, by simp [h3, hke]⟩
      simp only [List.mem_cons, not_or]
      exact ⟨fun h0 => hx h0.symm, h2⟩

/-! ## The three searches of `parse_value_after` -/

theorem parse_value_after_at (hay label out : List Nat) (outsz p m : Nat)
    (hp : firstOcc label hay p) (hm : firstOcc MARKER (hay.drop p) m) :
    parse_value_after hay label out outsz =
      match strchr (hay.drop (p + m + MARKER.length)) LT with
      | none => (false, out)
      | some e =>
        if e = 0 then (false, out)
        else (true, (hay.drop (p + m + MARKER.length)).take (clampLen e outsz)) := by
  unfold parse_value_after
  rw [(strstr_eq_some_iff hay label p).mpr hp]
  simp only [(strstr_eq_some_iff (hay.drop p) MARKER m).mpr hm]

theorem parse_value_after_no_marker (hay label out : List Nat) (outsz p : Nat)
    (hp : firstOcc label hay p) (hm : ¬ MARKER <:+: hay.drop p) :
    parse_value_after hay label out outsz = (false, out) := by
  unfold parse_value_after
  rw [(strstr_eq_some_iff hay label p).mpr hp]
  simp only [(strstr_eq_none_iff (hay.drop p) MARKER).mpr hm]

theorem parse_value_after_run (hay label out run rest : List Nat) (outsz p m : Nat)
    (hsz : 1 ≤ outsz) (hsz2 : outsz < 2 ^ 64)
    (hp : firstOcc label hay p) (hm : firstOcc MARKER (hay.drop p) m)
    (hrun : hay.drop (p + m + MARKER.length) = run ++ LT :: rest) (hlt : LT ∉ run) :
    parse_value_after hay label out outsz =
      if run = [] then (false, out) else (true, run.take (outsz - 1)) := by
  rw [parse_value_after_at hay label out outsz p m hp hm, hrun, strchr_append run rest LT hlt]
  by_cases hr : run = []
  · subst hr; rfl
  · have hlen : run.length ≠ 0 := fun h0 => hr (List.length_eq_zero.mp h0)
    simp only [if_neg hlen, if_neg hr]
    rw [take_clampLen run _ outsz hsz hsz2]

/-- C12. `parse_value_after` returns `false` exactly when the label does not
occur, or the marker does not occur at or after the first occurrence of the
label, or no `<` follows the end of the first such marker, or the `<` comes
right after that marker (an empty run). -/
theorem parse_value_after_missing_iff (hay label out : List Nat) (outsz : Nat) :
    (parse_value_after hay label out outsz).1 = false ↔
      (¬ label <:+: hay) ∨
      (∃ p, firstOcc label hay p ∧ ¬ MARKER <:+: hay.drop p) ∨
      (∃ p m, firstOcc label hay p ∧ firstOcc MARKER (hay.drop p) m ∧
        LT ∉ hay.drop (p + m + MARKER.length)) ∨
      (∃ p m, firstOcc label hay p ∧ firstOcc MARKER (hay.drop p) m ∧
        (hay.drop (p + m + MARKER.length)).head? = some LT) := by
  by_cases hl : label <:+: hay
  · obtain ⟨p, hp⟩ := firstOcc_of_not_absent hay label hl
    by_cases hmk : MARKER <:+: hay.drop p
    · obtain ⟨m, hm⟩ := firstOcc_of_not_absent (hay.drop p) MARKER hmk
      have hpu : ∀ p', firstOcc label hay p' → p' = p := fun p' hp' =>
        Option.some.inj (((strstr_eq_some_iff hay label p').mpr hp').symm.trans
          ((strstr_eq_some_iff hay label p).mpr hp))
      have hmu : ∀ m', firstOcc MARKER (hay.drop p) m' → m' = m := fun m' hm' =>
        Option.some.inj (((strstr_eq_some_iff _ MARKER m').mpr hm').symm.trans
          ((strstr_eq_some_iff _ MARKER m).mpr hm))
      rw [parse_value_after_at hay label out outsz p m hp hm]
      cases hs : strchr (hay.drop (p + m + MARKER.length)) LT with
      | none =>
        have := (strchr_eq_none_iff _ _).mp hs
        simp only [true_iff]
        exact Or.inr (Or.inr (Or.inl ⟨p, m, hp, hm, this⟩))
      | some e =>
        obtain ⟨run, rest, h1, h2, h3⟩ := strchr_eq_some _ _ _ hs
        by_cases he : e = 0
        · simp only [he, if_true, true_iff]
          have hr : run = [] := List.length_eq_zero.mp (h3.trans he)
          refine Or.inr (Or.inr (Or.inr ⟨p, m, hp, hm, ?_⟩))
          rw [h1, hr]; rfl
        · simp only [he, if_false, Bool.true_eq_false, false_iff]
          rintro (h | ⟨p', hp', h⟩ | ⟨p', m', hp', hm', h⟩ | ⟨p', m', hp', hm', h⟩)
          · exact h hl
          · rw [hpu p' hp'] at h; exact h hmk
          · have e1 := hpu p' hp'
            subst e1
            rw [hmu m' hm', h1] at h
            exact h (by simp)
          · have e1 := hpu p' hp'
            subst e1
            rw [hmu m' hm', h1] at h
            have hr : run ≠ [] := fun h0 => he (by rw [← h3, h0]; rfl)
            cases run with
            | nil => exact hr rfl
            | cons x xs =>
              simp only [List.cons_append, List.head?_cons, Option.some.injEq] at h
              exact h2 (by simp [h])
    · rw [parse_value_after_no_marker hay label out outsz p hp hmk]
      simp only [true_iff]
      exact Or.inr (Or.inl ⟨p, hp, hmk⟩)
  · rw [parse_value_after_of_absent hay label out outsz hl]
    simp only [true_iff]
    exact Or.inl hl

/-- C13. When `parse_value_after` returns `true` with a capacity `outsz` of
at least 1 (and within `size_t`), the output is the first
`min n (outsz - 1)` bytes of the value run, the `n` bytes between the end of
the first marker at or after the first occurrence of the label and the next
`<`: the whole run when `n < outsz`, never more than `outsz - 1` bytes, and
without `<`. Conversely a non-empty run is returned cut to `outsz - 1` bytes,
with the flag `true`, however long it is. -/
theorem parse_value_after_output :
    (∀ (hay label out res : List Nat) (outsz : Nat), 1 ≤ outsz → outsz < 2 ^ SIZE_BITS →
      parse_value_after hay label out outsz = (true, res) →
      ∃ p m run rest, firstOcc label hay p ∧ firstOcc MARKER (hay.drop p) m ∧
        hay.drop (p + m + MARKER.length) = run ++ LT :: rest ∧ LT ∉ run ∧
        res = run.take (min run.length (outsz - 1)) ∧
        (run.length < outsz → res = run) ∧ res.length ≤ outsz - 1 ∧ LT ∉ res) ∧
    (∀ (hay label out run rest : List Nat) (outsz p m : Nat), 1 ≤ outsz → outsz < 2 ^ SIZE_BITS →
      firstOcc label hay p → firstOcc MARKER (hay.drop p) m →
      hay.drop (p + m + MARKER.length) = run ++ LT :: rest → LT ∉ run → run ≠ [] →
      parse_value_after hay label out outsz = (true, run.take (outsz - 1))) := by
  constructor
  · intro hay label out res outsz hsz hsz2 h
    have hflag : (parse_value_after hay label out outsz).1 = true := by rw [h]
    have hl : label <:+: hay := by
      by_contra hl
      rw [parse_value_after_of_absent hay label out outsz hl] at hflag
      exact absurd hflag (by simp)
    obtain ⟨p, hp⟩ := firstOcc_of_not_absent hay label hl
    have hmk : MARKER <:+: hay.drop p := by
      by_contra hmk
      rw [parse_value_after_no_marker hay label out outsz p hp hmk] at hflag
      exact absurd hflag (by simp)
    obtain ⟨m, hm⟩ := firstOcc_of_not_absent (hay.drop p) MARKER hmk
    rw [parse_value_after_at hay label out outsz p m hp hm] at h
    cases hs : strchr (hay.drop (p + m + MARKER.length)) LT with
    | none => rw [hs] at h; simp at h
    | some e =>
      obtain ⟨run, rest, h1, h2, h3⟩ := strchr_eq_some _ _ _ hs
      rw [hs] at h
      by_cases he : e = 0
      · simp [he] at h
      · simp only [he, if_false, Prod.mk.injEq, true_and] at h
        rw [h1, ← h3, take_clampLen run _ outsz hsz hsz2] at h
        have hres : res = run.take (min run.length (outsz - 1)) := by
          rw [← h, List.take_eq_take]
          simp [Nat.min_comm]
        refine ⟨p, m, run, rest, hp, hm, h1, h2, hres, ?_, ?_, ?_⟩
        · intro hlt
          rw [← h, List.take_of_length_le (by omega)]
        · rw [← h, List.length_take]
          exact Nat.min_le_left _ _
        · intro hmem
          rw [← h] at hmem
          exact h2 (List.mem_of_mem_take hmem)
  · intro hay label out run rest outsz p m hsz hsz2 hp hm hrun hlt hne
    rw [parse_value_after_run hay label out run rest outsz p m hsz hsz2 hp hm hrun hlt,
      if_neg hne]

/-- C13, at a five-byte run and a capacity of four bytes, and at the same
run and the program's capacity of 64. -/
theorem parse_value_after_output_witness :
    (∃ p m run rest, firstOcc (bytes "Voltage") (exampleRow (bytes "Voltage") (bytes "233.4")) p ∧
        firstOcc MARKER ((exampleRow (bytes "Voltage") (bytes "233.4")).drop p) m ∧
        (exampleRow (bytes "Voltage") (bytes "233.4")).drop (p + m + MARKER.length)
          = run ++ LT :: rest ∧ LT ∉ run ∧
        bytes "233" = run.take (min run.length (4 - 1)) ∧
        (run.length < 4 → bytes "233" = run) ∧ (bytes "233").length ≤ 4 - 1 ∧
        LT ∉ bytes "233") ∧
    parse_value_after (exampleRow (bytes "Voltage") (bytes "233.4")) (bytes "Voltage") [] 64
      = (true, (bytes "233.4").take (64 - 1)) :=
  ⟨parse_value_after_output.1 (exampleRow (bytes "Voltage") (bytes "233.4")) (bytes "Voltage")
      [] (bytes "233") 4 (by decide) (by decide) (by decide),
   parse_value_after_output.2 (exampleRow (bytes "Voltage") (bytes "233.4")) (bytes "Voltage")
      [] (bytes "233.4") (bytes "/td></tr>") 64 8 16 (by decide) (by decide) (by decide)
      (by decide) (by decide) (by decide) (by decide)⟩

/-- C14. First occurrence wins. The result of `parse_value_after` (flag and
output) is its result on the suffix of the page that starts at the first
occurrence of the label, so the text before it has no influence; the result
depends on the label only through the offset of that first occurrence, so
later occurrences have none; and the marker used is the first one at or
after that offset, also when it belongs to the row of another field. -/
theorem first_occurrence_wins :
    (∀ (hay label out : List Nat) (outsz p : Nat), firstOcc label hay p →
      parse_value_after hay label out outsz
        = parse_value_after (hay.drop p) label out outsz) ∧
    (∀ (hay label label2 out : List Nat) (outsz p : Nat),
      firstOcc label hay p → firstOcc label2 hay p →
      parse_value_after hay label out outsz = parse_value_after hay label2 out outsz) ∧
    (∀ (hay label out run rest : List Nat) (p m : Nat),
      firstOcc label hay p → firstOcc MARKER (hay.drop p) m →
      hay.drop (p + m + MARKER.length) = run ++ LT :: rest → LT ∉ run → run ≠ [] →
      parse_value_after hay label out 64 = (true, run.take 63)) ∧
    parse_value_after PAGE_LABEL_TWICE (bytes "Voltage") [] 64 = (true, bytes "233") ∧
    parse_value_after PAGE_MARKER_IN_NEXT_ROW (bytes "Voltage") [] 64
      = (true, bytes "0.170") := by
  refine ⟨?_, ?_, ?_, by decide, by decide⟩
  · intro hay label out outsz p hp
    have h0 : firstOcc label (hay.drop p) 0 :=
      ⟨by simpa using hp.1, fun j hj => absurd hj (by omega)⟩
    by_cases hmk : MARKER <:+: hay.drop p
    · obtain ⟨m, hm⟩ := firstOcc_of_not_absent (hay.drop p) MARKER hmk
      have hm0 : firstOcc MARKER ((hay.drop p).drop 0) m := by rw [List.drop_zero]; exact hm
      have e : (hay.drop p).drop (0 + m + MARKER.length) = hay.drop (p + m + MARKER.length) := by
        rw [List.drop_drop]
        congr 1
        omega
      rw [parse_value_after_at hay label out outsz p m hp hm,
        parse_value_after_at (hay.drop p) label out outsz 0 m h0 hm0, e]
    · rw [parse_value_after_no_marker hay label out outsz p hp hmk,
        parse_value_after_no_marker (hay.drop p) label out outsz 0 h0
          (by rw [List.drop_zero]; exact hmk)]
  · intro hay label label2 out outsz p hp hp2
    unfold parse_value_after
    rw [(strstr_eq_some_iff hay label p).mpr hp, (strstr_eq_some_iff hay label2 p).mpr hp2]
  · intro hay label out run rest p m hp hm hrun hlt hne
    rw [parse_value_after_run hay label out run rest 64 p m (by decide) (by decide) hp hm
      hrun hlt, if_neg hne]

/-- C14, at the page with two voltage rows behind a heading. -/
theorem first_occurrence_wins_witness :
    parse_value_after PAGE_LABEL_TWICE (bytes "Voltage") [] 64
      = parse_value_after (PAGE_LABEL_TWICE.drop 22) (bytes "Voltage") [] 64 :=
  first_occurrence_wins.1 PAGE_LABEL_TWICE (bytes "Voltage") [] 64 22 (by decide)

/-! ## Only the method of the request matters -/

/-- C11. Two received requests that both begin with `GET ` get the same
answer for the same upstream outcome: the whole trace of the handler, hence
the status and the body, is the same. -/
theorem only_method_checked (charSigned : Bool) (avail1 avail2 : List Nat) (net : CurlRun)
    (h1 : (avail1.take 2047).take 4 = bytes "GET ")
    (h2 : (avail2.take 2047).take 4 = bytes "GET ") :
    handle_client charSigned (some avail1) net = handle_client charSigned (some avail2) net := by
  rw [handle_client_get charSigned avail1 net h1, handle_client_get charSigned avail2 net h2]

/-- C11, at two requests with different paths, versions and headers. -/
theorem only_method_checked_witness :
    handle_client false (some GET_REQUEST)
        ⟨true, 0, 200, [examplePage (bytes "233.4" :: OTHER_VALUES) STATE_ON]⟩ =
      handle_client false (some (bytes "GET /cm?cmnd=Power%20off HTTP/1.0\r\nHost: plug\r\n\r\n"))
        ⟨true, 0, 200, [examplePage (bytes "233.4" :: OTHER_VALUES) STATE_ON]⟩ :=
  only_method_checked false GET_REQUEST
    (bytes "GET /cm?cmnd=Power%20off HTTP/1.0\r\nHost: plug\r\n\r\n")
    ⟨true, 0, 200, [examplePage (bytes "233.4" :: OTHER_VALUES) STATE_ON]⟩
    (by decide) (by decide)

/-! ## The bounded body -/

/-- C15. For a `GET` request whose fetch succeeds with a body whose nine
fields extract and parse, the answer is 200 with the composed body when that
body is shorter than 1024 bytes, and 500 with `MSG_SERIAL` when it is not;
and whatever the request and the upstream outcome, a body sent with status
200 is a whole composed body of fewer than 1024 bytes. -/
theorem serialization_guard :
    (∀ (charSigned : Bool) (avail : List Nat) (net : CurlRun),
      (avail.take 2047).take 4 = bytes "GET " → fetchOk net → net.chunks.flatten ≠ [] →
      fieldsParse charSigned (cstr net.chunks.flatten) = true →
      ((compose (fieldValues charSigned (cstr net.chunks.flatten))
          (stateValue charSigned (cstr net.chunks.flatten))).length < 1024 →
        handle_client charSigned (some avail) net =
          [.fetch, .extract, .send_http 200 (bytes "OK") CTYPE_JSON
            (compose (fieldValues charSigned (cstr net.chunks.flatten))
              (stateValue charSigned (cstr net.chunks.flatten))), .close]) ∧
      (1024 ≤ (compose (fieldValues charSigned (cstr net.chunks.flatten))
          (stateValue charSigned (cstr net.chunks.flatten))).length →
        handle_client charSigned (some avail) net =
          [.fetch, .extract,
           .send_http 500 (bytes "Internal Server Error") CTYPE_JSON MSG_SERIAL, .close])) ∧
    (∀ (charSigned : Bool) (rx : Option (List Nat)) (net : CurlRun) (status ctype body : List Nat),
      Event.send_http 200 status ctype body ∈ handle_client charSigned rx net →
      body.length < 1024 ∧
      ∃ hay, fieldsParse charSigned hay = true ∧
        body = compose (fieldValues charSigned hay) (stateValue charSigned hay)) := by
  constructor
  · intro cs avail net hget hok hbody hparse
    rw [handle_client_get cs avail net hget, if_pos ⟨hok, hbody⟩, respond_eq_fields,
      if_pos hparse]
    constructor
    · intro hlen
      rw [if_neg (by omega)]
    · intro hlen
      rw [if_pos hlen]
      rfl
  · intro cs rx net status ctype body h
    rcases handle_client_cases cs rx net with h1 | h1 | h1 | ⟨hay, h1⟩
    · rw [h1] at h; simp at h
    · rw [h1] at h; simp at h
    · rw [h1] at h; simp at h
    · rw [h1] at h
      simp only [List.mem_cons, reduceCtorEq, false_or] at h
      obtain ⟨hp, hb⟩ := respond_200 cs hay status ctype body h
      refine ⟨?_, hay, hp, hb⟩
      rw [respond_eq_fields, if_pos hp] at h
      by_cases hlen : 1024 ≤ (compose (fieldValues cs hay) (stateValue cs hay)).length
      · rw [if_pos hlen] at h
        simp [SERIAL_FAILURE] at h
      · rw [hb]; omega

set_option maxRecDepth 1000000 in
/-- C15, at the page whose composed body has 1025 bytes. -/
theorem serialization_guard_witness :
    handle_client false (some GET_REQUEST) ⟨true, 0, 200, [examplePage LONG_VALUES []]⟩ =
      [.fetch, .extract,
       .send_http 500 (bytes "Internal Server Error") CTYPE_JSON MSG_SERIAL, .close] :=
  (serialization_guard.1 false GET_REQUEST ⟨true, 0, 200, [examplePage LONG_VALUES []]⟩
    (by decide) (by decide) (by decide) (by decide!)).2 (by decide!)

/-! ## What `trim` removes -/

theorem isLeftTrim_unsigned (b : Nat) : isLeftTrim false b = inLeftSet b := by
  unfold isLeftTrim inLeftSet LEFT_SET charVal
  rw [Bool.eq_iff_iff]
  simp only [Bool.false_and, Bool.false_eq_true, if_false, Bool.or_eq_true, beq_iff_eq,
    decide_eq_true_eq, List.mem_cons, List.mem_singleton, List.mem_nil_iff, or_false]
  omega

theorem isRightTrim_unsigned (b : Nat) : isRightTrim false b = inRightSet b := by
  unfold isRightTrim inRightSet RIGHT_SET charVal
  rw [Bool.eq_iff_iff]
  simp only [Bool.false_and, Bool.false_eq_true, if_false, Bool.or_eq_true, beq_iff_eq,
    decide_eq_true_eq, List.mem_cons, List.mem_singleton, List.mem_nil_iff, or_false]
  omega

theorem isLeftTrim_signed (b : Nat) (hb : b < 256) : isLeftTrim true b = inRightSet b := by
  unfold isLeftTrim inRightSet RIGHT_SET charVal
  rw [Bool.eq_iff_iff]
  simp only [Bool.true_and, decide_eq_true_eq, Bool.or_eq_true, beq_iff_eq,
    List.mem_cons, List.mem_singleton, List.mem_nil_iff, or_false]
  split_ifs <;> omega

theorem isRightTrim_signed (b : Nat) (hb : b < 256) : isRightTrim true b = inRightSet b := by
  unfold isRightTrim inRightSet RIGHT_SET charVal
  rw [Bool.eq_iff_iff]
  simp only [Bool.true_and, decide_eq_true_eq, Bool.or_eq_true, beq_iff_eq,
    List.mem_cons, List.mem_singleton, List.mem_nil_iff, or_false]
  split_ifs <;> omega

theorem dropWhile_congr_mem (p q : Nat → Bool) (s : List Nat) (h : ∀ b ∈ s, p b = q b) :
    s.dropWhile p = s.dropWhile q := by
  induction s with
  | nil => rfl
  | cons a as ih =>
    rw [List.dropWhile_cons, List.dropWhile_cons, h a (by simp),
      ih (fun b hb => h b (by simp [hb]))]

theorem rdropWhile_congr_mem (p q : Nat → Bool) (s : List Nat) (h : ∀ b ∈ s, p b = q b) :
    s.rdropWhile p = s.rdropWhile q := by
  unfold List.rdropWhile
  rw [dropWhile_congr_mem p q s.reverse (fun b hb => h b (List.mem_reverse.mp hb))]

theorem trim_isInfix (cs : Bool) (s : List Nat) : trim cs s <:+: s :=
  ((trim_isPrefix cs s).trans (cstr_isPrefix _)).isInfix.trans
    (List.dropWhile_suffix _).isInfix

/-- C16, on the code. Where plain `char` is unsigned, `trim` does what the
claim says: on a string it drops the longest prefix of bytes of `LEFT_SET`
and then the longest suffix of bytes of `RIGHT_SET`. In every case the result
is a contiguous part of the string and no longer than it. But where plain
`char` is signed the tests for `0xC2` and `0xA0` never hold and the prefix
dropped is the longest one of bytes of `RIGHT_SET`: the string `0xC2 0xA0 1`
comes out unchanged, where the claim has `1`. -/
theorem trim_ends :
    (∀ s : List Nat, 0 ∉ s →
      trim false s = (s.dropWhile inLeftSet).rdropWhile inRightSet) ∧
    (∀ (charSigned : Bool) (s : List Nat),
      trim charSigned s <:+: s ∧ (trim charSigned s).length ≤ s.length) ∧
    (∀ s : List Nat, 0 ∉ s → (∀ b ∈ s, b < 256) →
      trim true s = (s.dropWhile inRightSet).rdropWhile inRightSet) ∧
    trim true [0xC2, 0xA0, 49] = [0xC2, 0xA0, 49] ∧
    ([0xC2, 0xA0, 49].dropWhile inLeftSet).rdropWhile inRightSet = [49] := by
  refine ⟨?_, fun cs s => ⟨trim_isInfix cs s, (trim_isInfix cs s).length_le⟩, ?_,
    by decide, by decide⟩
  · intro s h0
    have hd : 0 ∉ s.dropWhile (isLeftTrim false) := fun h =>
      h0 ((List.dropWhile_suffix _).subset h)
    rw [trim_eq, cstr_of_zero_not_mem _ hd,
      dropWhile_congr_mem _ inLeftSet s (fun b _ => isLeftTrim_unsigned b),
      rdropWhile_congr_mem _ inRightSet _ (fun b _ => isRightTrim_unsigned b)]
  · intro s h0 hb
    have hd : 0 ∉ s.dropWhile (isLeftTrim true) := fun h =>
      h0 ((List.dropWhile_suffix _).subset h)
    rw [trim_eq, cstr_of_zero_not_mem _ hd,
      dropWhile_congr_mem _ inRightSet s (fun b hm => isLeftTrim_signed b (hb b hm)),
      rdropWhile_congr_mem _ inRightSet _ (fun b hm => isRightTrim_signed b
        (hb b ((List.dropWhile_suffix _).subset hm)))]

/-- C16, for unsigned `char`, at a padded value between non-breaking
spaces: the leading one goes, the trailing one stays. -/
theorem trim_ends_witness :
    trim false [32, 0xC2, 0xA0, 50, 51, 32, 0xC2, 0xA0, 9]
      = ([32, 0xC2, 0xA0, 50, 51, 32, 0xC2, 0xA0, 9].dropWhile inLeftSet).rdropWhile inRightSet ∧
    trim false [32, 0xC2, 0xA0, 50, 51, 32, 0xC2, 0xA0, 9] = [50, 51, 32, 0xC2, 0xA0] :=
  ⟨trim_ends.1 [32, 0xC2, 0xA0, 50, 51, 32, 0xC2, 0xA0, 9] (by decide), by decide⟩

end Tasmota
